import Mathlib

set_option maxHeartbeats 1000000

/-!
Verification of the Spyfall game engine of the bot-party repository.

The TypeScript sources are shallowly embedded: strings become `List Char`
(so that every character-level operation of the source is explicit),
stateful loops become explicit state passing, `Math.random`-driven picks
become an explicit choice function constrained by a validity predicate,
provider/controller calls become oracle functions, and code that can
throw or dereference `undefined` returns `Option`/`Except`.
-/

/-- Strings are modelled as explicit character lists. -/
abbrev Str := List Char

/-- Character class of the JavaScript regular-expression escape backslash-s,
which is also the set stripped by `String.prototype.trim`: ASCII whitespace,
the no-break space and the Unicode line/paragraph separators (the further
exotic Unicode space code points never occur in this code base). -/
def isJsSpace (c : Char) : Bool :=
  c == ' ' || c == '\t' || c == '\n' || c == '\x0b' || c == '\x0c' || c == '\r'
    || c == '\u00A0' || c == '\u2028' || c == '\u2029'

/-- Line terminators, the characters a JavaScript regular-expression dot
does not match. -/
def isLineTerm (c : Char) : Bool :=
  c == '\n' || c == '\r' || c == '\u2028' || c == '\u2029'

/-- Embedding of `s.trim()`: strip the whitespace class from both ends. -/
def jsTrim (s : Str) : Str :=
  ((s.dropWhile isJsSpace).reverse.dropWhile isJsSpace).reverse

/-- Embedding of `s.toLowerCase()` (the inputs of this code base are ASCII,
where `Char.toLower` agrees with the JavaScript conversion). -/
def toLowerStr (s : Str) : Str :=
  s.map Char.toLower

/-- Embedding of `normalizeName` from `utils/normalizeName.ts`:
`s.trim().toLowerCase()`. -/
def normalizeName (s : Str) : Str :=
  toLowerStr (jsTrim s)

/-- Case-insensitive character comparison, as performed by a regular
expression with the `i` flag on ASCII input. -/
def lowerEq (a b : Char) : Bool :=
  a.toLower == b.toLower

/-- Does `pat` match case-insensitively at the very start of `t`? -/
def isPrefixCI : Str → Str → Bool
  | [], _ => true
  | _ :: _, [] => false
  | a :: as, b :: bs => lowerEq a b && isPrefixCI as bs

/-- Scan `t` left to right for the first case-insensitive occurrence of
`pat`; return the remainder of `t` after the matched characters
(the leftmost-match rule of `String.prototype.match`). -/
def findKeyAux (pat : Str) : Str → Option Str
  | [] => none
  | c :: cs =>
    if isPrefixCI pat (c :: cs) then some ((c :: cs).drop pat.length)
    else findKeyAux pat cs

/-- After the key has matched, the regular expression `KEY:\s*(.*)` greedily
skips whitespace (which in JavaScript includes newlines), captures up to the
next line terminator, and the source then applies `.trim()`. -/
def matchTail (rest : Str) : Str :=
  jsTrim ((rest.dropWhile isJsSpace).takeWhile (fun c => !isLineTerm c))

/-- Embedding of `parseField` from `utils/parseField.ts`: build the regular
expression `KEY:\s*(.*)` with the `i` flag, match it against the text, and
return the trimmed capture, or the empty string when there is no match.
The key is taken literally, as it is for the alphabetic keys the code uses. -/
def parseField (key text : Str) : Str :=
  match findKeyAux (key ++ [':']) text with
  | none => []
  | some rest => matchTail rest

example : parseField ("TARGET".data) ("THOUGHT: hm\nTARGET: Alice\nQUESTION: What?".data)
    = ("Alice".data) := by decide
example : parseField ("VOTE".data) ("nothing here".data) = [] := by decide
example : parseField ("TARGET".data) ("target:   Bob  \r\nQ: x".data) = ("Bob".data) := by decide
example : parseField ("VOTE".data) ("please VOTE: Bob".data) = ("Bob".data) := by decide
example : parseField ("VOTE".data) ("VOTE:\nBob".data) = ("Bob".data) := by decide
example : normalizeName ("  The CASINO ".data) = ("the casino".data) := by decide

/-- Embedding of `String.prototype.includes` (contiguous, case-sensitive). -/
def jsIncludes (big sub : Str) : Bool :=
  match big with
  | [] => sub.isEmpty
  | _ :: rest => sub.isPrefixOf big || jsIncludes rest sub

/-- Tagged union `PlayerSecret` from `types.ts`. -/
inductive PlayerSecret where
  | spy : PlayerSecret
  | civilian (location : Str) (role : Str) : PlayerSecret
deriving DecidableEq, Repr

/-- Embedding of the `p.secret.kind === "SPY"` discriminator checks. -/
def secretIsSpy : PlayerSecret → Bool
  | .spy => true
  | .civilian _ _ => false

/-- The `Player` record from `types.ts`. -/
structure Player where
  id : Str
  name : Str
  isHuman : Bool
  secret : PlayerSecret
deriving DecidableEq, Repr

/-- The `Turn` record from `types.ts`. -/
structure Turn where
  askerId : Str
  targetId : Str
  question : Str
  answer : Str
deriving DecidableEq, Repr

/-- Abstraction of one draw of `arr[Math.floor(Math.random() * arr.length)]`:
an execution of the source corresponds to some choice function.  `ValidChoice`
is exactly the guarantee the expression provides on a non-empty array. -/
def ValidChoice {α : Type} (choose : List α → α) : Prop :=
  ∀ l : List α, l ≠ [] → choose l ∈ l

/-- Embedding of `pickRandom` from `utils/random.ts`; on an empty array the
source indexes out of bounds and yields `undefined`, modelled as `none`. -/
def pickRandom {α : Type} (choose : List α → α) (arr : List α) : Option α :=
  if arr.isEmpty then none else some (choose arr)

/-- Embedding of `safePickRandom` from `utils/random.ts`
(`arr.length ? pickRandom(arr) : fallback`); the fallback argument is an
`Option` because call sites pass possibly-`undefined` fallbacks. -/
def safePickRandom {α : Type} (choose : List α → α) (arr : List α)
    (fallback : Option α) : Option α :=
  if !arr.isEmpty then pickRandom choose arr else fallback

/-- The legality test inside `resolveTargetPlayer`
(`p.id === selfId || (lastAskerId && p.id === lastAskerId)`); note that in
JavaScript an `undefined` or empty `lastAskerId` string is falsy. -/
def isIllegal (selfId : Str) (lastAskerId : Option Str) (p : Player) : Bool :=
  p.id == selfId ||
    (match lastAskerId with
     | none => false
     | some l => !l.isEmpty && p.id == l)

/-- Embedding of `resolveTargetPlayer` from `utils/resolveTargetPlayer.ts`.
The stable descending sort by normalized-name length of the source
(`candidates.sort((a, b) => len(b) - len(a))`) is rendered by `mergeSort`,
which is also stable.  `none` models the `undefined` that the source can
only produce on an empty player list. -/
def resolveTargetPlayer (choose : List Player → Player) (players : List Player)
    (targetName : Str) (selfId : Str) (lastAskerId : Option Str) : Option Player :=
  let target := normalizeName targetName
  match players.find? (fun p =>
      normalizeName p.name == target && !isIllegal selfId lastAskerId p) with
  | some exact => some exact
  | none =>
    let candidates := (players.filter (fun p => !isIllegal selfId lastAskerId p)).filter
      (fun p =>
        let name := normalizeName p.name
        !name.isEmpty && !target.isEmpty &&
          (jsIncludes target name || jsIncludes name target))
    if candidates.length == 1 then candidates.head?
    else if 1 < candidates.length then
      (candidates.mergeSort (fun a b =>
        decide ((normalizeName b.name).length ≤ (normalizeName a.name).length))).head?
    else
      let validOptions := players.filter (fun p => !isIllegal selfId lastAskerId p)
      if validOptions.isEmpty then
        safePickRandom choose (players.filter (fun p => p.id != selfId)) players.head?
      else
        safePickRandom choose validOptions validOptions.head?

/-- A concrete deterministic choice function used in closed instances. -/
def headChoose {α : Type} [Inhabited α] (l : List α) : α :=
  l.headD default

instance : Inhabited Player := ⟨⟨[], [], false, .spy⟩⟩

def alice : Player := ⟨("Alice".data), ("Alice".data), false, .civilian ("Test".data) ("R1".data)⟩
def bob : Player := ⟨("Bob".data), ("Bob".data), false, .civilian ("Test".data) ("R2".data)⟩
def charlie : Player := ⟨("Charlie".data), ("Charlie".data), false, .spy⟩

/-- A second player carrying the same id as `alice` (nothing in the code
enforces id uniqueness of its input list). -/
def aliceTwin : Player := ⟨("Alice".data), ("Twin".data), false, .civilian ("Test".data) ("R3".data)⟩

example : resolveTargetPlayer headChoose [alice, bob, charlie] ("alice".data)
    ("Bob".data) none = some alice := by decide
example : resolveTargetPlayer headChoose [alice, bob, charlie] ("Char".data)
    ("Alice".data) none = some charlie := by decide
example : resolveTargetPlayer headChoose [alice, bob] ("xyz".data)
    (alice.id) (some bob.id) = some bob := by decide
example : resolveTargetPlayer headChoose [alice] ("whatever".data)
    (alice.id) none = some alice := by decide

/-- Result record of `tallyVotes` in `game.ts`; the `spy` field is the
non-null-asserted `players.find(...)`, kept as an `Option`. -/
structure TallyResult where
  accusedName : Option Str
  isTie : Bool
  spy : Option Player
deriving DecidableEq, Repr

/-- Embedding of `SpyfallGame.tallyVotes`: sort the vote-map entries by
descending count (JavaScript `sort` is stable, as is `mergeSort`), declare a
tie when the two top counts are equal, otherwise accuse the top entry.
The entry list stands for `[...votes.entries()]` (insertion order); on an
empty map the source dereferences `sortedVotes[0]` and crashes, modelled by
`accusedName = none` via `head?`. -/
def tallyVotes (votes : List (Str × Nat)) (players : List Player) : TallyResult :=
  let sortedVotes := votes.mergeSort (fun a b => decide (b.2 ≤ a.2))
  let isTie : Bool :=
    match sortedVotes with
    | a :: b :: _ => a.2 == b.2
    | _ => false
  { accusedName := if isTie then none else sortedVotes.head?.map (fun e => e.1)
    isTie := isTie
    spy := players.find? (fun p => secretIsSpy p.secret) }

/-- The `action` strings a controller can return from `chooseAction`. -/
inductive TurnAction where
  | question | guess | vote
deriving DecidableEq, Repr

/-- Result of `chooseAction` (`types.ts` `ActionChoice`). -/
structure ActionChoice where
  action : TurnAction
  thought : Option Str
deriving DecidableEq, Repr

/-- Result of `PlayerController.ask`. -/
structure AskResult where
  targetName : Str
  question : Str
  thought : Option Str
deriving DecidableEq, Repr

/-- Result of `PlayerController.accuse`; `reason` is a string whose emptiness
is tested by JavaScript truthiness at the call sites. -/
structure AccuseResult where
  targetName : Str
  reason : Str
deriving DecidableEq, Repr

/-- Result of `defendAgainstAccusation`. -/
structure DefenseResult where
  defense : Str
  thought : Option Str
deriving DecidableEq, Repr

/-- Result of `voteOnAccusation`; the source compares `result.vote` with the
string `"yes"`. -/
structure AccVoteResult where
  vote : Str
  reason : Str
deriving DecidableEq, Repr

/-- Oracles standing for the controller map and the random source: each field
is one `PlayerController` capability, given exactly the arguments the source
passes (plus, for the per-round calls of the main loop, the round number as a
nondeterminism index so that distinct rounds may receive distinct answers).
`choose` stands for `pickRandom`.  The orchestrator under these oracles is a
pure function. -/
structure Oracles where
  chooseAction : List Player → List Turn → Player → Bool → Nat → ActionChoice
  ask : List Player → Player → Nat → AskResult
  answer : Str → Str → Player → Nat → Str
  guessLocation : List Turn → Player → Bool → Str
  accuse : List Player → List Turn → Player → AccuseResult
  defend : Str → Str → List Turn → Player → DefenseResult
  voteOnAccusation : Str → Str → Str → List Turn → Player → AccVoteResult
  choose : List Player → Player

/-- A location catalog entry (`data.ts`). -/
structure LocationPack where
  location : Str
  roles : List Str
deriving DecidableEq, Repr

/-- Winner tag of `EarlyEndResult`. -/
inductive Winner where
  | spy | civilians
deriving DecidableEq, Repr

/-- Tagged union `EarlyEndResult` from `types.ts`. -/
inductive EarlyEndResult where
  | ended (winner : Winner) (reason : Str)
  | notEnded
deriving DecidableEq, Repr

/-- Winner projection of an `EarlyEndResult`. -/
def earlyWinner : EarlyEndResult → Option Winner
  | .ended w _ => some w
  | .notEnded => none

/-- Embedding of `SpyfallGame.handleEarlySpyGuess`: extract the `GUESS` field,
normalize guess and true location, compare for exact equality; either outcome
ends the game. -/
def handleEarlySpyGuess (o : Oracles) (spy : Player) (pack : LocationPack)
    (turns : List Turn) : EarlyEndResult :=
  let guessRaw := o.guessLocation turns spy false
  let guess := parseField ("GUESS".data) guessRaw
  if normalizeName guess == normalizeName pack.location then
    .ended .spy ("Spy correctly guessed the location!".data)
  else
    .ended .civilians ("Spy guessed wrong!".data)

/-- Embedding of `SpyfallGame.runSpyGuessIfEligible`: a final guess happens
only when the vote accused the spy or the vote was tied; the returned Boolean
is whether the normalized guess equals the normalized location. -/
def runSpyGuessIfEligible (o : Oracles) (accusedName : Option Str) (isTie : Bool)
    (spy : Player) (pack : LocationPack) (turns : List Turn) : Bool :=
  if accusedName != some spy.name && !isTie then false
  else
    let guessRaw := o.guessLocation turns spy true
    normalizeName (parseField ("GUESS".data) guessRaw) == normalizeName pack.location

/-- The non-accuser, non-accused players who cast explicit accusation votes. -/
def accusationVoters (players : List Player) (accuser accused : Player) : List Player :=
  players.filter (fun p => p.id != accuser.id && p.id != accused.id)

/-- Total yes votes of an accusation: the accuser is pre-counted as one
implicit yes, then each explicit `"yes"` adds one. -/
def accusationYesVotes (o : Oracles) (players : List Player) (accuser accused : Player)
    (defense : Str) (turns : List Turn) : Nat :=
  1 + ((accusationVoters players accuser accused).filter
        (fun v => (o.voteOnAccusation accuser.name accused.name defense turns v).vote
          == ("yes".data))).length

/-- Step 1 of the accusation: resolve the free-text accusation target by
exact normalized name (`players.find(p => normalizeName(p.name) ===
normalizeName(accusedName))`). -/
def findAccused (o : Oracles) (players : List Player) (turns : List Turn)
    (accuser : Player) : Option Player :=
  players.find? (fun p =>
    normalizeName p.name == normalizeName (o.accuse players turns accuser).targetName)

/-- Step 2 of the accusation: the defense text produced by the accused, given
the accusation reason (or the `"No reason given"` fallback for a falsy one). -/
def accusationDefense (o : Oracles) (players : List Player) (turns : List Turn)
    (accuser accused : Player) : Str :=
  let accusation := o.accuse players turns accuser
  let reasonShown :=
    if accusation.reason.isEmpty then ("No reason given".data) else accusation.reason
  (o.defend accuser.name reasonShown turns accused).defense

/-- Embedding of `SpyfallGame.handleAccusation`.  The accused is resolved by
exact normalized name; an unresolved or self-targeted accusation is skipped
(`notEnded`).  Conviction needs `floor(players.length/2)+1` yes votes (the
accused is pre-counted as one implicit no, which only affects logging).  On
conviction of the spy the spy gets a final guess; conviction of a non-spy wins
for the spy.  `none` models the crash the source would hit dereferencing a
missing spy in the conviction branch.  (Reason strings follow the source with
apostrophes spelled out.) -/
def handleAccusation (o : Oracles) (accuser : Player) (players : List Player)
    (turns : List Turn) (pack : LocationPack) : Option EarlyEndResult :=
  let spyFound := players.find? (fun p => secretIsSpy p.secret)
  match findAccused o players turns accuser with
  | none => some .notEnded
  | some accused =>
    if accused.id == accuser.id then some .notEnded
    else
      let defense := accusationDefense o players turns accuser accused
      let yesVotes := accusationYesVotes o players accuser accused defense turns
      let majority := players.length / 2 + 1
      if majority ≤ yesVotes then
        match spyFound with
        | none => none
        | some spy =>
          if accused.id == spy.id then
            let guessRaw := o.guessLocation turns spy true
            if normalizeName (parseField ("GUESS".data) guessRaw)
                == normalizeName pack.location then
              some (.ended .spy ("Spy was caught but correctly guessed the location!".data))
            else
              some (.ended .civilians ("Spy was caught and could not guess the location!".data))
          else
            some (.ended .spy (("Civilians convicted ".data) ++ accused.name
              ++ (" but the spy was ".data) ++ spy.name ++ ("!".data)))
      else some .notEnded

/-- Provider tags (`providers`). -/
inductive ProviderType where
  | openai | anthropic | google
deriving DecidableEq, Repr

/-- Agent history strategy (`providers` `AgentMode`). -/
inductive AgentMode where
  | memory | stateful
deriving DecidableEq, Repr

/-- One player slot of the game configuration (`types.ts` `PlayerSlotConfig`). -/
inductive PlayerSlotConfig where
  | human
  | ai (provider : ProviderType) (mode : AgentMode)
deriving DecidableEq, Repr

/-- Embedding of `getProviderDisplayName` over `PROVIDER_DISPLAY_NAMES`. -/
def getProviderDisplayName : ProviderType → Str
  | .openai => ("GPT".data)
  | .anthropic => ("Claude".data)
  | .google => ("Gemini".data)

/-- The default location catalog `LOCATIONS` from `data.ts`. -/
def LOCATIONS : List LocationPack :=
  [ ⟨("Airport".data),
      [("Pilot".data), ("Flight Attendant".data), ("Security Officer".data),
       ("Traveler".data), ("Air Traffic Controller".data), ("Mechanic".data)]⟩,
    ⟨("Beach".data),
      [("Lifeguard".data), ("Surfer".data), ("Tourist".data),
       ("Ice Cream Vendor".data), ("Photographer".data), ("Beach Volleyball Player".data)]⟩,
    ⟨("Casino".data),
      [("Dealer".data), ("Gambler".data), ("Security Guard".data),
       ("Bartender".data), ("Pit Boss".data), ("Entertainer".data)]⟩,
    ⟨("Hospital".data),
      [("Doctor".data), ("Nurse".data), ("Surgeon".data),
       ("Patient".data), ("Paramedic".data), ("Receptionist".data)]⟩,
    ⟨("Movie Set".data),
      [("Director".data), ("Actor".data), ("Camera Operator".data),
       ("Makeup Artist".data), ("Producer".data), ("Sound Engineer".data)]⟩ ]

/-- One Fisher-Yates swap `[a[i], a[j]] = [a[j], a[i]]`; guarded by the bounds
that the loop indices always satisfy. -/
def listSwap {α : Type} (l : List α) (i j : Nat) : List α :=
  match l.get? i, l.get? j with
  | some a, some b => (l.set i b).set j a
  | _, _ => l

/-- The Fisher-Yates loop of `shuffle` in `utils/random.ts`, iterating
`i = len-1, ..., 1` and swapping `a[i]` with `a[js i]`, where
`js i = Math.floor(Math.random() * (i + 1))`. -/
def shuffleGo {α : Type} (js : Nat → Nat) : List α → Nat → List α
  | l, 0 => l
  | l, i+1 => shuffleGo js (listSwap l (i+1) (js (i+1))) i

/-- Embedding of `shuffle` from `utils/random.ts` with the random draws
abstracted into `js`. -/
def shuffle {α : Type} (js : Nat → Nat) (arr : List α) : List α :=
  shuffleGo js arr (arr.length - 1)

/-- Does a slot use the given provider? (`slot.type !== "human"` counting). -/
def slotUsesProvider (t : ProviderType) : PlayerSlotConfig → Bool
  | .human => false
  | .ai p _ => p == t

/-- Embedding of the `providerCounts` record built by `setupGame`. -/
def providerCounts (slots : List PlayerSlotConfig) (t : ProviderType) : Nat :=
  (slots.filter (slotUsesProvider t)).length

/-- The display name assigned to slot `i`, including the `-n` suffix used when
a provider occurs more than once (`providerInstanceNum` bookkeeping). -/
def slotNameAt (slots : List PlayerSlotConfig) (i : Nat) : Str :=
  match slots.get? i with
  | some .human => ("You".data)
  | some (.ai t _) =>
    let base := getProviderDisplayName t
    let inst := ((slots.take (i+1)).filter (slotUsesProvider t)).length
    if 1 < providerCounts slots t then base ++ ("-".data) ++ (Nat.repr inst).data
    else base
  | none => []

/-- The `roles.pop() || "Visitor"` draw: pop the last remaining role, and fall
back to `"Visitor"` when the stack is exhausted or the popped string is empty
(both are falsy). -/
def popRole (roles : List Str) : Str :=
  match roles.getLast? with
  | some r => if r.isEmpty then ("Visitor".data) else r
  | none => ("Visitor".data)

/-- The player-construction loop of `setupGame`: slot `i` becomes the spy when
`i === spyIndex`, every other slot becomes a civilian of the pack location
with a popped role. -/
def buildPlayersGo (pack : LocationPack) (spyIndex : Nat)
    (allSlots : List PlayerSlotConfig) :
    List PlayerSlotConfig → Nat → List Str → List Player
  | [], _, _ => []
  | slot :: rest, i, roles =>
    let name := slotNameAt allSlots i
    let isHuman : Bool := slot == .human
    if i == spyIndex then
      ⟨name, name, isHuman, .spy⟩ :: buildPlayersGo pack spyIndex allSlots rest (i+1) roles
    else
      ⟨name, name, isHuman, .civilian pack.location (popRole roles)⟩ ::
        buildPlayersGo pack spyIndex allSlots rest (i+1) roles.dropLast

/-- Location selection of `setupGame` (phases revision): an explicitly
configured location name is looked up case-insensitively in the catalog and
a miss throws; otherwise a random pack is used (`randomPack` stands for the
`pickRandom(LOCATIONS)` draw).  An empty configured name is falsy and also
falls back to the random pack. -/
def selectPack (locationName : Option Str) (randomPack : LocationPack) :
    Except Str LocationPack :=
  match locationName with
  | some nm =>
    if nm.isEmpty then .ok randomPack
    else
      match LOCATIONS.find? (fun loc => toLowerStr loc.location == toLowerStr nm) with
      | some found => .ok found
      | none => .error (("Location ".data) ++ nm ++ (" not found".data))
  | none => .ok randomPack

/-- Embedding of the pure core of `setupGame` (phases revision, matching the
`game.ts` revision on slot/role/spy assignment): resolve the pack, draw
`spyIndex = Math.floor(Math.random() * numPlayers)`, take the first
`numPlayers - 1` roles of the shuffled role list, and build the players.
Controller and agent construction are I/O and are not modelled. -/
def setupGame (slots : List PlayerSlotConfig) (locationName : Option Str)
    (randomPack : LocationPack) (spyIndex : Nat) (js : Nat → Nat) :
    Except Str (LocationPack × List Player) :=
  match selectPack locationName randomPack with
  | .error e => .error e
  | .ok pack =>
    let numPlayers := slots.length
    let roles := (shuffle js pack.roles).take (numPlayers - 1)
    .ok (pack, buildPlayersGo pack spyIndex slots slots 0 roles)

/-- The role a player carries when a civilian. -/
def civRole (p : Player) : Option Str :=
  match p.secret with
  | .civilian _ r => some r
  | .spy => none

def casinoPack : LocationPack :=
  ⟨("Casino".data),
    [("Dealer".data), ("Gambler".data), ("Security Guard".data),
     ("Bartender".data), ("Pit Boss".data), ("Entertainer".data)]⟩

/-- Eight identical AI slots, more players than any pack has roles plus one. -/
def eightSlots : List PlayerSlotConfig :=
  List.replicate 8 (.ai .openai .memory)

example : (setupGame eightSlots (some ("Casino".data)) casinoPack 0 (fun i => i)).toOption.map
    (fun pr => pr.2.filterMap civRole) =
    some [("Entertainer".data), ("Pit Boss".data), ("Bartender".data),
          ("Security Guard".data), ("Gambler".data), ("Dealer".data), ("Visitor".data)] := by
  decide

/-- Result record of `runQuestionRounds` (`phases/types.ts` `RoundsResult`). -/
structure RoundsResult where
  turns : List Turn
  earlyEnd : EarlyEndResult
deriving DecidableEq, Repr

/-- Ghost trace of the action gate: one entry per `chooseAction` call of the
main loop, recording which round asked, who was asked, whether the accuse
option was offered (`canAccuse`) and what was chosen. -/
structure GateEntry where
  round : Nat
  askerId : Str
  canAccuse : Bool
  action : TurnAction
deriving DecidableEq, Repr

/-- The mutable locals of the `runQuestionRounds` loop. -/
structure LoopState where
  turns : List Turn
  answered : List Str
  usedVote : List Str
  roundCount : Nat
  currentAsker : Player
  lastAsker : Option Player

/-- JavaScript set insertion (`Set.add`); order is irrelevant here, only
membership and size are ever read. -/
def setAdd (s : List Str) (x : Str) : List Str :=
  if x ∈ s then s else x :: s

/-- The default ask-a-question body of one loop iteration: obtain the raw ask,
resolve a legal target, obtain the raw answer and extract the public answer
(`parseField("ANSWER", raw) || raw`); yields the recorded `Turn` and the next
asker.  Bystander reactions and `THOUGHT` extraction only produce log lines
and are not modelled.  `none` models the crash on an `undefined` target
(impossible for a non-empty player list). -/
def askStep (o : Oracles) (players : List Player) (st : LoopState) (roundNo : Nat) :
    Option (Turn × Player) :=
  let rawAsk := o.ask players st.currentAsker roundNo
  match resolveTargetPlayer o.choose players rawAsk.targetName st.currentAsker.id
      (st.lastAsker.map Player.id) with
  | none => none
  | some target =>
    let rawAnswer := o.answer st.currentAsker.name rawAsk.question target roundNo
    let fieldAnswer := parseField ("ANSWER".data) rawAnswer
    let publicAnswer := if fieldAnswer.isEmpty then rawAnswer else fieldAnswer
    some (⟨st.currentAsker.name, target.name, rawAsk.question, publicAnswer⟩, target)

/-- The `while (roundCount < numRounds)` loop of
`phases/questionRounds.ts`, structured over the remaining round budget.
Once every player has answered, the asker is offered an action: a spy
choosing `guess` triggers the early-guess procedure (which always ends the
game); choosing `vote` while the accuse option is offered first marks the
accusation right as used and then runs the accusation sub-procedure,
continuing with a fresh random asker if it does not end the game.  Otherwise
the iteration asks one question and appends one `Turn`.  The second component
is the ghost gate trace. -/
def runQuestionRoundsAux (o : Oracles) (players : List Player) (pack : LocationPack)
    (allowEarlyVote : Bool) :
    Nat → LoopState → List GateEntry → Option RoundsResult × List GateEntry
  | 0, st, log => (some ⟨st.turns, .notEnded⟩, log)
  | Nat.succ rem, st, log =>
    let roundNo := st.roundCount + 1
    let actionsUnlocked : Bool := players.length ≤ st.answered.length
    if actionsUnlocked then
      let canAccuse := allowEarlyVote && !(st.usedVote.contains st.currentAsker.id)
      let choice := o.chooseAction players st.turns st.currentAsker canAccuse roundNo
      let log1 := log ++ [⟨roundNo, st.currentAsker.id, canAccuse, choice.action⟩]
      if choice.action == .guess && secretIsSpy st.currentAsker.secret then
        (some ⟨st.turns, handleEarlySpyGuess o st.currentAsker pack st.turns⟩, log1)
      else if choice.action == .vote && canAccuse then
        let usedVote1 := setAdd st.usedVote st.currentAsker.id
        match handleAccusation o st.currentAsker players st.turns pack with
        | none => (none, log1)
        | some (.ended w reason) => (some ⟨st.turns, .ended w reason⟩, log1)
        | some .notEnded =>
          match players.filter (fun p => p.id != st.currentAsker.id) with
          | [] => (none, log1)
          | q :: qs =>
            runQuestionRoundsAux o players pack allowEarlyVote rem
              { turns := st.turns, answered := st.answered, usedVote := usedVote1,
                roundCount := roundNo,
                currentAsker := o.choose (q :: qs),
                lastAsker := some st.currentAsker } log1
      else
        match askStep o players st roundNo with
        | none => (none, log1)
        | some (turn, target) =>
          runQuestionRoundsAux o players pack allowEarlyVote rem
            { turns := st.turns ++ [turn],
              answered := setAdd st.answered target.id,
              usedVote := st.usedVote,
              roundCount := roundNo,
              currentAsker := target,
              lastAsker := some st.currentAsker } log1
    else
      match askStep o players st roundNo with
      | none => (none, log)
      | some (turn, target) =>
        runQuestionRoundsAux o players pack allowEarlyVote rem
          { turns := st.turns ++ [turn],
            answered := setAdd st.answered target.id,
            usedVote := st.usedVote,
            roundCount := roundNo,
            currentAsker := target,
            lastAsker := some st.currentAsker } log

/-- Embedding of `runQuestionRounds`: pick a random first asker and run the
loop with empty transcript and bookkeeping. -/
def runQuestionRounds (o : Oracles) (numRounds : Nat) (players : List Player)
    (pack : LocationPack) (allowEarlyVote : Bool) :
    Option RoundsResult × List GateEntry :=
  match players with
  | [] => (none, [])
  | _ :: _ =>
    runQuestionRoundsAux o players pack allowEarlyVote numRounds
      { turns := [], answered := [], usedVote := [], roundCount := 0,
        currentAsker := o.choose players, lastAsker := none } []

/-- Chat message roles (`ChatMessage`). -/
inductive MsgRole where
  | system | user | assistant
deriving DecidableEq, Repr

/-- A chat message. -/
structure Msg where
  role : MsgRole
  content : Str
deriving DecidableEq, Repr

/-- Embedding of `Agent.sayWithMemory`: append the user turn, send the whole
history; there is no try/catch around `provider.chat`, so a provider failure
(`Except.error`) propagates to the caller.  On success the reply is appended
and returned together with the new history. -/
def sayWithMemory (chat : List Msg → Except Str Str) (memory : List Msg)
    (userContent : Str) : Except Str (Str × List Msg) :=
  let memory1 := memory ++ [⟨.user, userContent⟩]
  match chat memory1 with
  | .error e => .error e
  | .ok text => .ok (text, memory1 ++ [⟨.assistant, text⟩])

/-- Embedding of `Agent.sayStateful`: only the new user content is sent; the
provider call sits in a try/catch and a failure is converted into the inline
string `Error: <message>` returned as the reply. -/
def sayStateful (chatStateful : Str → Except Str Str) (userContent : Str) : Str :=
  match chatStateful userContent with
  | .ok text => text
  | .error e => ("Error: ".data) ++ e

/-- Embedding of `Agent.say`: dispatch on the agent mode fixed at
construction. -/
def agentSay (mode : AgentMode) (chat : List Msg → Except Str Str)
    (chatStateful : Str → Except Str Str) (memory : List Msg)
    (userContent : Str) : Except Str (Str × List Msg) :=
  match mode with
  | .memory => sayWithMemory chat memory userContent
  | .stateful => .ok (sayStateful chatStateful userContent, memory)

/-- Replace every CRLF line ending by LF (used to state the line-ending
invariance of the claim on `parseField`). -/
def crlfToLf : Str → Str
  | [] => []
  | [c] => [c]
  | c :: d :: rest =>
    if c = '\r' ∧ d = '\n' then '\n' :: crlfToLf rest
    else c :: crlfToLf (d :: rest)

/-- Does `pat` occur case-insensitively anywhere in the text? -/
def hasKeyCI (pat : Str) : Str → Bool
  | [] => false
  | c :: cs => isPrefixCI pat (c :: cs) || hasKeyCI pat cs

/-- The lines of a text, split at LF (stating the claim wording about a line
that starts with the key). -/
def splitLines : Str → List Str
  | [] => [[]]
  | c :: rest =>
    if c = '\n' then [] :: splitLines rest
    else
      match splitLines rest with
      | [] => [[c]]
      | l :: ls => (c :: l) :: ls

/-- The highest vote count of a vote-map entry list (claim vocabulary for the
tally theorem). -/
def maxCount (votes : List (Str × Nat)) : Nat :=
  (votes.map (fun v => v.2)).foldr Nat.max 0

/-- Relation on gate-trace entries stating that the one-time accusation right
is consumed: once an asker chose the accuse action while it was offered, every
later gate entry of the same asker has the accuse option withheld. -/
def gateConsumedR (e e2 : GateEntry) : Prop :=
  e.askerId = e2.askerId → e.action = .vote → e.canAccuse = true → e2.canAccuse = false

/-! Concrete fixtures used by the closed counterexample and witness
theorems. -/

/-- A baseline oracle assignment with simple constant behaviours. -/
def cOracleBase : Oracles :=
  { chooseAction := fun _ _ _ _ _ => ⟨.question, none⟩
    ask := fun _ _ _ => ⟨("Alice".data), ("What do you see?".data), none⟩
    answer := fun _ _ _ _ => ("ANSWER: Things.".data)
    guessLocation := fun _ _ _ => ("GUESS: Beach".data)
    accuse := fun _ _ a => ⟨a.name, ("sus".data)⟩
    defend := fun _ _ _ _ => ⟨("not me".data), none⟩
    voteOnAccusation := fun _ _ _ _ _ => ⟨("no".data), ("hmm".data)⟩
    choose := headChoose }

/-- Oracle whose accusation names Charlie. -/
def c2Oracle : Oracles :=
  { cOracleBase with accuse := fun _ _ _ => ⟨("Charlie".data), ("I am sure".data)⟩ }

/-- Oracle whose spy guess is the claim example `"the CASINO "`. -/
def c5Oracle : Oracles :=
  { cOracleBase with
    guessLocation := fun _ _ _ => ("GUESS: the CASINO \nREASON: vibes".data) }

/-- Oracle for the question-round scenarios: ask Bob when Alice is asking,
otherwise ask Alice. -/
def c9Oracle : Oracles :=
  { cOracleBase with
    ask := fun _ a _ =>
      ⟨(if a.id == ("Alice".data) then ("Bob".data) else ("Alice".data)),
        ("Q?".data), none⟩ }

/-- Oracle that always chooses the accuse action and accuses itself (a no-op
accusation), over the two-player roster. -/
def c8Oracle : Oracles :=
  { c9Oracle with chooseAction := fun _ _ _ _ _ => ⟨.vote, none⟩ }

/-- Four identical AI slots. -/
def fourSlots : List PlayerSlotConfig :=
  List.replicate 4 (.ai .openai .memory)

/-- The players produced by `setupGame` on `fourSlots`, Casino, spy index 1
and the identity shuffle. -/
def fourPlayers : List Player :=
  [ ⟨("GPT-1".data), ("GPT-1".data), false, .civilian ("Casino".data) ("Security Guard".data)⟩,
    ⟨("GPT-2".data), ("GPT-2".data), false, .spy⟩,
    ⟨("GPT-3".data), ("GPT-3".data), false, .civilian ("Casino".data) ("Gambler".data)⟩,
    ⟨("GPT-4".data), ("GPT-4".data), false, .civilian ("Casino".data) ("Dealer".data)⟩ ]

example : setupGame fourSlots (some ("Casino".data)) casinoPack 1 (fun i => i)
    = .ok (casinoPack, fourPlayers) := by rfl

/-- Provider stub that always fails. -/
def errChat : List Msg → Except Str Str := fun _ => .error ("boom".data)

/-- Stateful provider stub that always fails. -/
def errStateful : Str → Except Str Str := fun _ => .error ("boom".data)

/-- Stateful provider stub that always succeeds. -/
def okStateful : Str → Except Str Str := fun _ => .ok ("fine".data)

/-! Generic auxiliary lemmas. -/

theorem validChoice_headChoose {α : Type} [Inhabited α] :
    ValidChoice (fun l : List α => headChoose l) := by
  intro l hl
  cases l with
  | nil => exact absurd rfl hl
  | cons a as => simp [headChoose]

theorem find?_eq_some_of_unique {α : Type} {p : α → Bool} {l : List α} {a : α}
    (ha : a ∈ l) (hpa : p a = true) (hu : ∀ b ∈ l, p b = true → b = a) :
    l.find? p = some a := by
  induction l with
  | nil => cases ha
  | cons x xs ih =>
    by_cases hx : p x = true
    · have hxa : x = a := hu x (List.mem_cons_self x xs) hx
      subst hxa
      simp [List.find?, hpa]
    · have hax : a ≠ x := by
        intro h
        exact hx (h ▸ hpa)
      have ha' : a ∈ xs := by
        cases List.mem_cons.mp ha with
        | inl h => exact absurd h hax
        | inr h => exact h
      have := ih ha' (fun b hb hpb => hu b (List.mem_cons_of_mem _ hb) hpb)
      simp [List.find?, hx]
      simpa using this

theorem setAdd_subset {s : List Str} {x : Str} : s ⊆ setAdd s x := by
  unfold setAdd
  split
  · exact fun a ha => ha
  · exact fun a ha => List.mem_cons_of_mem _ ha

theorem mem_setAdd_self {s : List Str} {x : Str} : x ∈ setAdd s x := by
  unfold setAdd
  split
  · assumption
  · exact List.mem_cons_self _ _

/-! Lemmas about the agent model (claim C3). -/

/-- C3 (corrected): a provider failure is caught and converted into the inline
string `Error: <message>` in stateful mode, but in memory mode
`Agent.sayWithMemory` has no try/catch and the failure propagates to the
caller. -/
theorem C3_provider_failure_amended (mem : List Msg) (u e : Str)
    (chat : List Msg → Except Str Str) (chatSt : Str → Except Str Str)
    (h1 : chat (mem ++ [⟨.user, u⟩]) = .error e) (h2 : chatSt u = .error e) :
    agentSay .memory chat chatSt mem u = .error e
    ∧ agentSay .stateful chat chatSt mem u = .ok ((("Error: ".data) ++ e), mem) := by
  constructor
  · simp [agentSay, sayWithMemory, h1]
  · simp [agentSay, sayStateful, h2]

/-- C3 counterexample: in memory mode the provider failure is not converted;
`Agent.say` surfaces the exception to the caller, contradicting the claim that
both modes return an inline error string. -/
theorem C3_memory_mode_propagates :
    agentSay .memory errChat okStateful [⟨.system, ("sys".data)⟩] ("hi".data)
      = .error ("boom".data) := rfl

/-- C3 witness: the amended theorem applied to the failing provider stubs. -/
theorem C3_amended_witness :
    agentSay .memory errChat errStateful [⟨.system, ("sys".data)⟩] ("hi".data)
      = .error ("boom".data)
    ∧ agentSay .stateful errChat errStateful [⟨.system, ("sys".data)⟩] ("hi".data)
      = .ok ((("Error: ".data) ++ ("boom".data)), [⟨.system, ("sys".data)⟩]) :=
  C3_provider_failure_amended [⟨.system, ("sys".data)⟩] ("hi".data) ("boom".data)
    errChat errStateful rfl rfl

/-! Spy-guess comparison (claim C5). -/

/-- C5 (corrected): in both the early and the final spy-guess procedure the
spy wins exactly when the extracted guess and the true location are equal
after trim-plus-lowercase normalization; any other normalized string loses.
Whitespace/casing-only differences therefore match, but the claim example
`"the CASINO "` versus `"Casino"` differs by more than whitespace and casing
and does not match (see the counterexample). -/
theorem C5_spy_guess_amended (o : Oracles) (spy : Player) (pack : LocationPack)
    (turns : List Turn) (accusedName : Option Str) (isTie : Bool) :
    (earlyWinner (handleEarlySpyGuess o spy pack turns) = some .spy ↔
      normalizeName (parseField ("GUESS".data) (o.guessLocation turns spy false))
        = normalizeName pack.location)
    ∧ (earlyWinner (handleEarlySpyGuess o spy pack turns) = some .civilians ↔
      ¬ normalizeName (parseField ("GUESS".data) (o.guessLocation turns spy false))
        = normalizeName pack.location)
    ∧ ((accusedName = some spy.name ∨ isTie = true) →
      (runSpyGuessIfEligible o accusedName isTie spy pack turns = true ↔
        normalizeName (parseField ("GUESS".data) (o.guessLocation turns spy true))
          = normalizeName pack.location)) := by
  refine ⟨?_, ?_, ?_⟩
  · by_cases h : normalizeName (parseField ("GUESS".data) (o.guessLocation turns spy false))
        = normalizeName pack.location
    · simp [handleEarlySpyGuess, earlyWinner, h]
    · simp [handleEarlySpyGuess, earlyWinner, h]
  · by_cases h : normalizeName (parseField ("GUESS".data) (o.guessLocation turns spy false))
        = normalizeName pack.location
    · simp [handleEarlySpyGuess, earlyWinner, h]
    · simp [handleEarlySpyGuess, earlyWinner, h]
  · intro helig
    unfold runSpyGuessIfEligible
    have hcond : (accusedName != some spy.name && !isTie) = false := by
      cases helig with
      | inl h => simp [h]
      | inr h => simp [h]
    rw [hcond]
    simp

/-- C5 counterexample: the spec example insists that a guess of
`"the CASINO "` against location `"Casino"` must still match, but the two
differ by more than casing/whitespace after normalization, so the code ends
the game for the civilians. -/
theorem C5_the_casino_does_not_match :
    handleEarlySpyGuess c5Oracle charlie casinoPack []
      = .ended .civilians ("Spy guessed wrong!".data)
    ∧ normalizeName ("the CASINO ".data) ≠ normalizeName ("Casino".data) := by
  constructor
  · rfl
  · decide

/-- C5 witness: the final-guess arm of the amended theorem at a concrete
eligible input. -/
theorem C5_amended_witness :
    runSpyGuessIfEligible c5Oracle (some charlie.name) false charlie casinoPack [] = true ↔
      normalizeName (parseField ("GUESS".data) (c5Oracle.guessLocation [] charlie true))
        = normalizeName casinoPack.location :=
  (C5_spy_guess_amended c5Oracle charlie casinoPack [] (some charlie.name) false).2.2
    (Or.inl rfl)

/-! Accusation majority arithmetic (claim C2). -/

/-- C2 (corrected): with a resolved, non-self accusation and an existing spy,
conviction happens exactly when the yes votes (the accuser pre-counted as one
implicit yes) reach `floor(N/2)+1`; consequently a two-player game consisting
only of accuser and accused never convicts, because the single implicit yes
vote is below the threshold of two. -/
theorem C2_accusation_majority_amended (o : Oracles) (accuser : Player)
    (players : List Player) (turns : List Turn) (pack : LocationPack)
    (accused spy : Player)
    (hacc : findAccused o players turns accuser = some accused)
    (hne : accused.id ≠ accuser.id)
    (hspy : players.find? (fun p => secretIsSpy p.secret) = some spy) :
    (¬ handleAccusation o accuser players turns pack = some .notEnded ↔
      players.length / 2 + 1 ≤ accusationYesVotes o players accuser accused
        (accusationDefense o players turns accuser accused) turns)
    ∧ ((∀ p ∈ players, p.id = accuser.id ∨ p.id = accused.id) → players.length = 2 →
        handleAccusation o accuser players turns pack = some .notEnded) := by
  have hbeq : (accused.id == accuser.id) = false := by
    simpa using hne
  constructor
  · unfold handleAccusation
    rw [hacc]
    simp only [hbeq, Bool.false_eq_true, if_false, hspy]
    by_cases hmaj : players.length / 2 + 1 ≤ accusationYesVotes o players accuser accused
        (accusationDefense o players turns accuser accused) turns
    · rw [if_pos hmaj]
      simp only [hmaj, iff_true]
      split
      · split <;> simp
      · simp
    · rw [if_neg hmaj]
      simp [hmaj]
  · intro hp2 hlen
    have hvoters : accusationVoters players accuser accused = [] := by
      unfold accusationVoters
      rw [List.filter_eq_nil]
      intro p hp
      cases hp2 p hp with
      | inl h => simp [h]
      | inr h => simp [h]
    have hyes : accusationYesVotes o players accuser accused
        (accusationDefense o players turns accuser accused) turns = 1 := by
      unfold accusationYesVotes
      rw [hvoters]
      rfl
    unfold handleAccusation
    rw [hacc]
    simp only [hbeq, Bool.false_eq_true, if_false]
    rw [hyes, hlen]
    simp

/-- C2 counterexample: a two-player accusation (accuser Alice, accused spy
Charlie) fails to convict: the implicit votes alone give one yes vote against
a majority threshold of two, so no majority is reached. -/
theorem C2_two_player_no_conviction :
    handleAccusation c2Oracle alice [alice, charlie] [] casinoPack = some .notEnded
    ∧ accusationYesVotes c2Oracle [alice, charlie] alice charlie
        (accusationDefense c2Oracle [alice, charlie] [] alice charlie) [] = 1
    ∧ [alice, charlie].length / 2 + 1 = 2 := by
  refine ⟨rfl, rfl, rfl⟩

/-- C2 witness: the amended theorem applied to the concrete two-player
accusation. -/
theorem C2_amended_witness :
    findAccused c2Oracle [alice, charlie] [] alice = some charlie
    ∧ handleAccusation c2Oracle alice [alice, charlie] [] casinoPack = some .notEnded := by
  refine ⟨rfl, ?_⟩
  exact (C2_accusation_majority_amended c2Oracle alice [alice, charlie] [] casinoPack
    charlie charlie rfl (by decide) rfl).2 (by decide) rfl

/-! Lemmas about name resolution (claims C1 and C10). -/

theorem head?_mem {α : Type} {l : List α} {a : α} (h : l.head? = some a) : a ∈ l := by
  cases l with
  | nil => cases h
  | cons x xs =>
    simp only [List.head?] at h
    cases h
    exact List.mem_cons_self _ _

theorem head?_isSome_of_ne_nil {α : Type} {l : List α} (h : l ≠ []) :
    l.head?.isSome = true := by
  cases l with
  | nil => exact absurd rfl h
  | cons a as => rfl

theorem mergeSort_ne_nil {α : Type} {le : α → α → Bool} {l : List α} (h : l ≠ []) :
    l.mergeSort le ≠ [] := by
  intro hnil
  have hlen := (List.mergeSort_perm l le).length_eq
  rw [hnil] at hlen
  simp only [List.length_nil] at hlen
  exact h (List.eq_nil_of_length_eq_zero hlen.symm)

/-- On a non-empty player list, `resolveTargetPlayer` always produces a
player (the source never throws there). -/
theorem resolveTargetPlayer_isSome (choose : List Player → Player)
    (players : List Player) (tn selfId : Str) (la : Option Str)
    (hne : players ≠ []) :
    (resolveTargetPlayer choose players tn selfId la).isSome = true := by
  simp only [resolveTargetPlayer]
  split
  · rfl
  · split
    · rename_i hlen
      apply head?_isSome_of_ne_nil
      intro hnil
      rw [hnil] at hlen
      simp at hlen
    · split
      · rename_i hlen
        apply head?_isSome_of_ne_nil
        apply mergeSort_ne_nil
        intro hnil
        rw [hnil] at hlen
        simp at hlen
      · split
        · unfold safePickRandom pickRandom
          split
          · split
            · simp_all
            · rfl
          · exact head?_isSome_of_ne_nil hne
        · rename_i hvoe
          unfold safePickRandom pickRandom
          split
          · rfl
          · rename_i h1
            exfalso
            apply hvoe
            simpa using h1

/-- Case analysis on a resolved target: it is either a legal candidate, or the
legal set was empty and the deep fallback picked among non-self players, or
even that set was empty and `players[0]` was returned. -/
theorem resolveTargetPlayer_some_cases {choose : List Player → Player}
    (hvc : ValidChoice choose) {players : List Player} {tn selfId : Str}
    {la : Option Str} {r : Player}
    (hres : resolveTargetPlayer choose players tn selfId la = some r) :
    isIllegal selfId la r = false
    ∨ (players.filter (fun p => !isIllegal selfId la p) = []
        ∧ (r ∈ players.filter (fun p => p.id != selfId)
           ∨ (players.filter (fun p => p.id != selfId) = [] ∧ players.head? = some r))) := by
  simp only [resolveTargetPlayer] at hres
  split at hres
  · rename_i exact0 hfind
    cases hres
    have hpred := List.find?_some hfind
    left
    have h2 := Bool.and_elim_right hpred
    simpa using h2
  · split at hres
    · have hmem := head?_mem hres
      have := (List.mem_filter.mp hmem).1
      have hleg := (List.mem_filter.mp this).2
      left
      simpa using hleg
    · split at hres
      · have hmem := head?_mem hres
        rw [List.mem_mergeSort] at hmem
        have := (List.mem_filter.mp hmem).1
        have hleg := (List.mem_filter.mp this).2
        left
        simpa using hleg
      · split at hres
        · rename_i hvoe
          right
          refine ⟨by simpa using hvoe, ?_⟩
          unfold safePickRandom pickRandom at hres
          cases hns : players.filter (fun p => p.id != selfId) with
          | nil =>
            rw [hns] at hres
            simp only [List.isEmpty_nil] at hres
            right
            exact ⟨rfl, by simpa using hres⟩
          | cons q qs =>
            rw [hns] at hres
            simp only [List.isEmpty_cons] at hres
            simp at hres
            left
            rw [← hns] at hres ⊢
            rw [← hres]
            exact hvc _ (by rw [hns]; simp)
        · rename_i hvoe
          unfold safePickRandom pickRandom at hres
          cases hvo : players.filter (fun p => !isIllegal selfId la p) with
          | nil => rw [hvo] at hvoe; simp at hvoe
          | cons q qs =>
            rw [hvo] at hres
            simp only [List.isEmpty_cons] at hres
            simp at hres
            left
            have hrm : r ∈ players.filter (fun p => !isIllegal selfId la p) := by
              rw [hvo]
              rw [← hres]
              exact hvc _ (by simp)
            have := (List.mem_filter.mp hrm).2
            simpa using this

theorem exists_other_id {players : List Player}
    (hids : (players.map Player.id).Nodup) (hlen : 2 ≤ players.length)
    (sid : Str) : ∃ w ∈ players, w.id ≠ sid := by
  cases players with
  | nil => simp at hlen
  | cons p1 rest =>
    cases rest with
    | nil => simp at hlen
    | cons p2 rest2 =>
      simp only [List.map, List.nodup_cons] at hids
      have h12 : p1.id ≠ p2.id := by
        intro h
        exact hids.1 (by rw [h]; exact List.mem_cons_self _ _)
      by_cases h1 : p1.id = sid
      · exact ⟨p2, List.mem_cons_of_mem _ (List.mem_cons_self _ _), by rw [← h1]; exact h12.symm⟩
      · exact ⟨p1, List.mem_cons_self _ _, h1⟩

theorem exists_third_id {players : List Player}
    (hids : (players.map Player.id).Nodup) (hlen : 3 ≤ players.length)
    (sid lid : Str) : ∃ w ∈ players, w.id ≠ sid ∧ w.id ≠ lid := by
  by_contra hcon
  push_neg at hcon
  have hsub : (players.map Player.id).toFinset ⊆ {sid, lid} := by
    intro x hx
    rw [List.mem_toFinset, List.mem_map] at hx
    obtain ⟨w, hw, hwx⟩ := hx
    rcases Classical.em (w.id = sid) with h | h
    · simp [← hwx, h]
    · have := hcon w hw h
      simp [← hwx, this]
  have hcard : (players.map Player.id).toFinset.card ≤ 2 := by
    calc (players.map Player.id).toFinset.card ≤ ({sid, lid} : Finset Str).card :=
          Finset.card_le_card hsub
      _ ≤ 2 := Finset.card_insert_le _ _ |>.trans (by simp)
  rw [List.toFinset_card_of_nodup hids, List.length_map] at hcard
  omega

/-- C1 (corrected): on well-formed player lists (pairwise-distinct non-empty
ids), `resolveTargetPlayer` never throws and never returns the acting self;
when at least one player other than self and last asker exists (in
particular whenever the list has three or more players), it never returns the
last asker either; and an exact normalized-name match on a legal player
(under pairwise-distinct normalized names) returns exactly that player.  On
the two-player roster consisting only of self and last asker the fallback
returns the last asker (see the counterexample), which is why the claim as
stated is false. -/
theorem C1_resolveTargetPlayer_amended (choose : List Player → Player)
    (hvc : ValidChoice choose) (players : List Player) (q : Str) (s : Player)
    (lastAsk : Option Player)
    (hids : (players.map Player.id).Nodup)
    (hs : s ∈ players)
    (hlen : 2 ≤ players.length)
    (hlast : ∀ l ∈ lastAsk, l ∈ players ∧ l.id ≠ s.id ∧ l.id ≠ []) :
    (resolveTargetPlayer choose players q s.id (lastAsk.map Player.id)).isSome = true
    ∧ (∀ r, resolveTargetPlayer choose players q s.id (lastAsk.map Player.id) = some r →
        r.id ≠ s.id)
    ∧ (3 ≤ players.length →
        ∀ r, resolveTargetPlayer choose players q s.id (lastAsk.map Player.id) = some r →
          ∀ l ∈ lastAsk, r.id ≠ l.id)
    ∧ (∀ p ∈ players, (players.map (fun p => normalizeName p.name)).Nodup →
        normalizeName q = normalizeName p.name → p.id ≠ s.id →
        (∀ l ∈ lastAsk, p.id ≠ l.id) →
        resolveTargetPlayer choose players q s.id (lastAsk.map Player.id) = some p) := by
  have hne : players ≠ [] := by
    intro h
    rw [h] at hlen
    simp at hlen
  refine ⟨resolveTargetPlayer_isSome choose players q s.id (lastAsk.map Player.id) hne,
    ?_, ?_, ?_⟩
  · intro r hr
    rcases resolveTargetPlayer_some_cases hvc hr with hleg | ⟨hempty, hcase⟩
    · intro hid
      rw [isIllegal.eq_def] at hleg
      simp only [Bool.or_eq_false_iff] at hleg
      have := hleg.1
      simp [hid] at this
    · rcases hcase with hmem | ⟨hnil, hhead⟩
      · have := (List.mem_filter.mp hmem).2
        simpa using this
      · exfalso
        obtain ⟨w, hw, hwid⟩ := exists_other_id hids hlen s.id
        have : w ∈ players.filter (fun p => p.id != s.id) := by
          rw [List.mem_filter]
          exact ⟨hw, by simpa using hwid⟩
        rw [hnil] at this
        cases this
  · intro h3 r hr l hl
    obtain ⟨hlmem, hls, hlne⟩ := hlast l hl
    obtain ⟨w, hw, hws, hwl⟩ := exists_third_id hids h3 s.id l.id
    have hwleg : isIllegal s.id (lastAsk.map Player.id) w = false := by
      rw [isIllegal.eq_def]
      cases hla : lastAsk.map Player.id with
      | none => simp [hws]
      | some lid =>
        have : lid = l.id := by
          cases lastAsk with
          | none => cases hla
          | some l2 =>
            simp only [Option.map_some'] at hla
            cases hla
            cases hl
            rfl
        rw [this]
        simp [hws, hwl]
    rcases resolveTargetPlayer_some_cases hvc hr with hleg | ⟨hempty, _⟩
    · rw [isIllegal.eq_def] at hleg
      simp only [Bool.or_eq_false_iff] at hleg
      have h2 := hleg.2
      cases lastAsk with
      | none => cases hl
      | some l2 =>
        cases hl
        simp only [Option.map_some'] at h2
        intro hrl
        rw [hrl] at h2
        simp [hlne] at h2
    · exfalso
      have : w ∈ players.filter (fun p => !isIllegal s.id (lastAsk.map Player.id) p) := by
        rw [List.mem_filter]
        exact ⟨hw, by simp [hwleg]⟩
      rw [hempty] at this
      cases this
  · intro p hp hnames hq hpids hplast
    have hpleg : isIllegal s.id (lastAsk.map Player.id) p = false := by
      rw [isIllegal.eq_def]
      cases lastAsk with
      | none => simp [hpids]
      | some l2 =>
        have := hplast l2 rfl
        simp only [Option.map_some']
        simp [hpids, this]
    have hfind : players.find? (fun p2 =>
        normalizeName p2.name == normalizeName q
          && !isIllegal s.id (lastAsk.map Player.id) p2) = some p := by
      apply find?_eq_some_of_unique hp
      · simp [hq, hpleg]
      · intro b hb hbp
        have hbq : normalizeName b.name = normalizeName q := by
          have := Bool.and_elim_left hbp
          simpa using this
        have : normalizeName b.name = normalizeName p.name := by rw [hbq, hq]
        exact List.inj_on_of_nodup_map hnames hb hp this
    simp only [resolveTargetPlayer]
    rw [show (fun p2 => normalizeName p2.name == normalizeName q
          && !isIllegal s.id (lastAsk.map Player.id) p2) = (fun p2 =>
        normalizeName p2.name == normalizeName q
          && !isIllegal s.id (lastAsk.map Player.id) p2) from rfl] at hfind
    rw [hfind]

/-- C1 counterexample: on the two-player roster where the last asker is set,
every candidate is illegal and the deep fallback (which excludes only self)
returns the last asker Bob, contradicting that the function never returns
`l`. -/
theorem C1_two_player_returns_lastAsker :
    resolveTargetPlayer headChoose [alice, bob] ("xyz".data) alice.id (some bob.id)
      = some bob
    ∧ bob.id ≠ alice.id ∧ 2 ≤ ([alice, bob] : List Player).length := by
  refine ⟨by decide, by decide, by decide⟩

/-- C1 witness: the amended theorem on a three-player roster with Alice
acting, Bob the last asker and the query naming Charlie. -/
theorem C1_amended_witness :
    (resolveTargetPlayer headChoose [alice, bob, charlie] ("Charlie".data) alice.id
        ((some bob).map Player.id)).isSome = true
    ∧ (∀ r, resolveTargetPlayer headChoose [alice, bob, charlie] ("Charlie".data) alice.id
          ((some bob).map Player.id) = some r → r.id ≠ alice.id)
    ∧ (3 ≤ ([alice, bob, charlie] : List Player).length →
        ∀ r, resolveTargetPlayer headChoose [alice, bob, charlie] ("Charlie".data) alice.id
            ((some bob).map Player.id) = some r → ∀ l ∈ some bob, r.id ≠ l.id)
    ∧ (∀ p ∈ [alice, bob, charlie],
        (([alice, bob, charlie] : List Player).map (fun p => normalizeName p.name)).Nodup →
        normalizeName ("Charlie".data) = normalizeName p.name → p.id ≠ alice.id →
        (∀ l ∈ some bob, p.id ≠ l.id) →
        resolveTargetPlayer headChoose [alice, bob, charlie] ("Charlie".data) alice.id
          ((some bob).map Player.id) = some p) :=
  C1_resolveTargetPlayer_amended headChoose validChoice_headChoose
    [alice, bob, charlie] ("Charlie".data) alice (some bob)
    (by decide) (by decide) (by decide)
    (by
      intro l hl
      rw [Option.mem_def] at hl
      injection hl with h
      subst h
      exact ⟨by decide, by decide, by decide⟩)

/-- C10 (corrected): with the singleton list containing only the acting self,
every query resolves without throwing to that same player via the
`safePickRandom` fallback to `players[0]`; but the singleton is the only
shape that can return the acting player only on rosters with pairwise
distinct ids — with duplicated ids the deep fallback can hand back the
acting player on longer lists (see the counterexample). -/
theorem C10_resolveTargetPlayer_amended (choose : List Player → Player)
    (hvc : ValidChoice choose) (players : List Player) (q : Str) (selfId : Str)
    (lastA : Option Str) :
    (∀ s : Player, players = [s] → selfId = s.id →
        resolveTargetPlayer choose players q selfId lastA = some s)
    ∧ ((players.map Player.id).Nodup →
        ∀ r, resolveTargetPlayer choose players q selfId lastA = some r →
          r.id = selfId → players = [r]) := by
  constructor
  · intro s hps hsid
    subst hps
    subst hsid
    simp [resolveTargetPlayer, isIllegal.eq_def, safePickRandom, pickRandom,
      List.find?, List.filter]
  · intro hids r hr hid
    rcases resolveTargetPlayer_some_cases hvc hr with hleg | ⟨hempty, hcase⟩
    · exfalso
      rw [isIllegal.eq_def] at hleg
      simp only [Bool.or_eq_false_iff] at hleg
      have := hleg.1
      rw [hid] at this
      simp at this
    · rcases hcase with hmem | ⟨hnil, hhead⟩
      · exfalso
        have := (List.mem_filter.mp hmem).2
        rw [hid] at this
        simp at this
      · have hall : ∀ p ∈ players, p.id = selfId := by
          intro p hp
          have := List.filter_eq_nil_iff.mp hnil p hp
          simpa using this
        cases players with
        | nil => cases hhead
        | cons x rest =>
          simp only [List.head?] at hhead
          cases hhead
          cases rest with
          | nil => rfl
          | cons y rest2 =>
            exfalso
            have hy : y.id = selfId := hall y (by simp)
            have hx : r.id = selfId := hall r (by simp)
            simp only [List.map, List.nodup_cons] at hids
            exact hids.1 (by rw [hx, ← hy]; simp)

/-- C10 counterexample: on the two-element list pairing `alice` with a second
player that carries the same id, every candidate is illegal, the deep
fallback filter `p.id !== selfId` is empty, and `safePickRandom` falls back
to `players[0] = alice` — the acting player is returned on a list that is
not the singleton, refuting the uniqueness half of the original claim. -/
theorem C10_duplicate_id_not_singleton :
    resolveTargetPlayer headChoose [alice, aliceTwin] ("xyz".data) alice.id none
      = some alice
    ∧ aliceTwin.id = alice.id
    ∧ ([alice, aliceTwin] : List Player) ≠ [alice] := by
  refine ⟨by decide, by decide, by decide⟩

/-- C10 witness: the amended theorem applied to the singleton Alice roster
with Alice acting, and its uniqueness half applied to the id-distinct
two-player roster. -/
theorem C10_amended_witness :
    resolveTargetPlayer headChoose [alice] ("whatever".data) alice.id none = some alice
    ∧ (∀ r, resolveTargetPlayer headChoose [alice, bob] ("Bob".data) alice.id none
          = some r → r.id = alice.id → [alice, bob] = [r]) :=
  ⟨(C10_resolveTargetPlayer_amended headChoose validChoice_headChoose [alice]
      ("whatever".data) alice.id none).1 alice rfl rfl,
   (C10_resolveTargetPlayer_amended headChoose validChoice_headChoose [alice, bob]
      ("Bob".data) alice.id none).2 (by decide)⟩

/-! Vote tally (claim C6). -/

theorem foldr_max_le {l : List Nat} {m : Nat} (h : ∀ x ∈ l, x ≤ m) :
    l.foldr Nat.max 0 ≤ m := by
  induction l with
  | nil => simp
  | cons a as ih =>
    simp only [List.foldr]
    have ha := h a (by simp)
    have hrec := ih (fun x hx => h x (by simp [hx]))
    exact Nat.max_le.mpr ⟨ha, hrec⟩

theorem maxCount_perm {v1 v2 : List (Str × Nat)} (h : v1.Perm v2) :
    maxCount v1 = maxCount v2 := by
  unfold maxCount
  exact @List.Perm.foldr_eq _ _ _ _ _ ⟨fun a b c => Nat.max_left_comm a b c⟩ (h.map _) 0

/-- C6 (confirmed): on a non-empty vote map, the tally declares a tie with a
null accused exactly when the two highest counts agree (that is, the maximal
count is attained at least twice); otherwise the accused is the entry holding
the strictly highest count. -/
theorem C6_tallyVotes_tie (votes : List (Str × Nat)) (players : List Player)
    (hne : votes ≠ []) :
    ((tallyVotes votes players).isTie = true ↔
      2 ≤ (votes.filter (fun v => v.2 == maxCount votes)).length)
    ∧ ((tallyVotes votes players).isTie = true →
        (tallyVotes votes players).accusedName = none)
    ∧ ((tallyVotes votes players).isTie = false →
        ∃ nm c, (tallyVotes votes players).accusedName = some nm ∧ (nm, c) ∈ votes
          ∧ c = maxCount votes
          ∧ ∀ v ∈ votes, v.1 ≠ nm → v.2 < c) := by
  have hperm := List.mergeSort_perm votes (fun a b => decide (b.2 ≤ a.2))
  have hsorted : List.Pairwise (fun a b : Str × Nat => b.2 ≤ a.2)
      (votes.mergeSort (fun a b => decide (b.2 ≤ a.2))) := by
    have := @List.sorted_mergeSort (Str × Nat)
      (fun a b : Str × Nat => decide (b.2 ≤ a.2))
      (fun a b c hab hbc => by
        simp only [decide_eq_true_eq] at *
        omega)
      (fun a b => by
        simp only [Bool.or_eq_true, decide_eq_true_eq]
        omega)
      votes
    exact this.imp (fun h => by simpa using h)
  cases hms : votes.mergeSort (fun a b => decide (b.2 ≤ a.2)) with
  | nil =>
    rw [hms] at hperm
    exact absurd (hperm.symm.eq_nil ▸ rfl : votes = []) hne
  | cons a tail =>
    rw [hms] at hperm hsorted
    cases tail with
    | nil =>
      have hv : votes = [a] := List.perm_singleton.mp hperm.symm
      subst hv
      have hmax : maxCount [a] = a.2 := by
        unfold maxCount
        simp [Nat.max]
      refine ⟨?_, ?_, ?_⟩
      · simp only [tallyVotes, hms]
        constructor
        · intro h
          cases h
        · intro h
          rw [hmax] at h
          simp at h
      · intro h
        simp only [tallyVotes, hms] at h
        cases h
      · intro _
        refine ⟨a.1, a.2, ?_, by simp, hmax.symm, ?_⟩
        · simp [tallyVotes, hms]
        · intro v hv hvn
          simp only [List.mem_singleton] at hv
          subst hv
          exact absurd rfl hvn
    | cons b rest =>
      have hble : b.2 ≤ a.2 := (List.pairwise_cons.mp hsorted).1 b (by simp)
      have hrest_le_b : ∀ x ∈ rest, x.2 ≤ b.2 :=
        fun x hx => ((List.pairwise_cons.mp (List.pairwise_cons.mp hsorted).2).1) x hx
      have hall_le_a : ∀ x ∈ b :: rest, x.2 ≤ a.2 :=
        (List.pairwise_cons.mp hsorted).1
      have hmax : maxCount votes = a.2 := by
        rw [maxCount_perm hperm.symm]
        unfold maxCount
        simp only [List.map, List.foldr]
        have : ((b :: rest).map (fun v => v.2)).foldr Nat.max 0 ≤ a.2 := by
          apply foldr_max_le
          intro x hx
          rw [List.mem_map] at hx
          obtain ⟨y, hy, hyx⟩ := hx
          rw [← hyx]
          exact hall_le_a y hy
        simp only [List.map, List.foldr] at this ⊢
        exact Nat.max_eq_left this
      have htie : (tallyVotes votes players).isTie = (a.2 == b.2) := by
        simp [tallyVotes, hms]
      have hfilter : (votes.filter (fun v => v.2 == maxCount votes)).length
          = ((a :: b :: rest).filter (fun v => v.2 == maxCount votes)).length := by
        rw [← List.countP_eq_length_filter, ← List.countP_eq_length_filter]
        exact hperm.symm.countP_eq _
      refine ⟨?_, ?_, ?_⟩
      · rw [htie, hfilter, hmax]
        constructor
        · intro h
          simp only [beq_iff_eq] at h
          simp only [List.filter, beq_self_eq_true, h]
          simp
        · intro h
          by_contra hab
          simp only [beq_iff_eq] at hab
          have hb : ¬ (b.2 == a.2) = true := by
            simp only [beq_iff_eq]
            intro hba
            exact hab hba.symm
          have hrest : ∀ x ∈ rest, ¬ (x.2 == a.2) = true := by
            intro x hx
            simp only [beq_iff_eq]
            intro hxa
            have h1 := hrest_le_b x hx
            have : ¬ b.2 = a.2 := fun hba => hab hba.symm
            omega
          rw [List.filter_cons_of_pos (by simp)] at h
          have hnil2 : List.filter (fun v => v.2 == a.2) (b :: rest) = [] := by
            rw [List.filter_eq_nil_iff]
            intro x hx
            rcases List.mem_cons.mp hx with h1 | h1
            · rw [h1]
              exact hb
            · exact hrest x h1
          rw [hnil2] at h
          simp at h
      · intro h
        simp only [tallyVotes, hms] at h ⊢
        simp only [h]
        simp [tallyVotes, hms, h]
      · intro h
        rw [htie] at h
        simp only [beq_eq_false_iff_ne, ne_eq] at h
        refine ⟨a.1, a.2, ?_, ?_, hmax.symm, ?_⟩
        · simp [tallyVotes, hms, h]
        · exact hperm.mem_iff.mp (by simp)
        · intro v hv hvn
          have hvs : v ∈ a :: b :: rest := hperm.symm.mem_iff.mp hv
          rcases List.mem_cons.mp hvs with hva | hvbr
          · exact absurd (by rw [hva]) hvn
          · have h1 : v.2 ≤ b.2 := by
              rcases List.mem_cons.mp hvbr with hvb | hvr
              · rw [hvb]
              · exact hrest_le_b v hvr
            have h2 : b.2 < a.2 := by
              rcases Nat.lt_or_ge b.2 a.2 with h3 | h3
              · exact h3
              · exfalso
                exact h (by omega)
            omega

/-- C6 witness: the tally theorem applied to a concrete two-entry vote map. -/
theorem C6_tallyVotes_witness :
    ((tallyVotes [(("Alice".data), 1), (("Bob".data), 2)] []).isTie = true ↔
      2 ≤ ([(("Alice".data), 1), (("Bob".data), 2)].filter
        (fun v => v.2 == maxCount [(("Alice".data), 1), (("Bob".data), 2)])).length)
    ∧ ((tallyVotes [(("Alice".data), 1), (("Bob".data), 2)] []).isTie = true →
        (tallyVotes [(("Alice".data), 1), (("Bob".data), 2)] []).accusedName = none)
    ∧ ((tallyVotes [(("Alice".data), 1), (("Bob".data), 2)] []).isTie = false →
        ∃ nm c, (tallyVotes [(("Alice".data), 1), (("Bob".data), 2)] []).accusedName = some nm
          ∧ (nm, c) ∈ [(("Alice".data), 1), (("Bob".data), 2)]
          ∧ c = maxCount [(("Alice".data), 1), (("Bob".data), 2)]
          ∧ ∀ v ∈ [(("Alice".data), 1), (("Bob".data), 2)], v.1 ≠ nm → v.2 < c) :=
  C6_tallyVotes_tie [(("Alice".data), 1), (("Bob".data), 2)] [] (by decide)

/-! Setup invariants (claim C7). -/

theorem cons_set_perm {α : Type} :
    ∀ (xs : List α) (k : Nat) (x b : α), xs.get? k = some b →
      (b :: xs.set k x).Perm (x :: xs) := by
  intro xs
  induction xs with
  | nil => intro k x b h; cases h
  | cons y ys ih =>
    intro k x b h
    cases k with
    | zero =>
      simp only [List.get?] at h
      cases h
      simp only [List.set]
      exact List.Perm.swap _ _ _
    | succ k =>
      simp only [List.get?] at h
      simp only [List.set]
      exact ((List.Perm.swap y b _).trans
        (List.Perm.cons y (ih k x b h))).trans (List.Perm.swap x y ys)

theorem set_set_perm {α : Type} :
    ∀ (l : List α) (i j : Nat) (a b : α), l.get? i = some a → l.get? j = some b →
      ((l.set i b).set j a).Perm l := by
  intro l
  induction l with
  | nil => intro i j a b h _; cases h
  | cons x xs ih =>
    intro i j a b ha hb
    cases i with
    | zero =>
      simp only [List.get?] at ha
      cases ha
      cases j with
      | zero =>
        simp only [List.get?] at hb
        cases hb
        simp
      | succ k =>
        simp only [List.get?] at hb
        simp only [List.set]
        exact cons_set_perm xs k _ _ hb
    | succ m =>
      simp only [List.get?] at ha
      cases j with
      | zero =>
        simp only [List.get?] at hb
        cases hb
        simp only [List.set]
        exact cons_set_perm xs m _ _ ha
      | succ k =>
        simp only [List.get?] at hb
        simp only [List.set]
        exact List.Perm.cons x (ih m k a b ha hb)

theorem listSwap_perm {α : Type} (l : List α) (i j : Nat) :
    (listSwap l i j).Perm l := by
  unfold listSwap
  split
  · rename_i a b ha hb
    exact set_set_perm l i j a b ha hb
  · exact List.Perm.refl l

theorem shuffleGo_perm {α : Type} (js : Nat → Nat) :
    ∀ (i : Nat) (l : List α), (shuffleGo js l i).Perm l := by
  intro i
  induction i with
  | zero => intro l; exact List.Perm.refl l
  | succ n ih =>
    intro l
    exact (ih (listSwap l (n+1) (js (n+1)))).trans (listSwap_perm l (n+1) (js (n+1)))

/-- The Fisher-Yates shuffle always produces a permutation of its input. -/
theorem shuffle_perm {α : Type} (js : Nat → Nat) (arr : List α) :
    (shuffle js arr).Perm arr :=
  shuffleGo_perm js (arr.length - 1) arr

theorem getLast_not_mem_dropLast {α : Type} {l : List α} (h : l.Nodup)
    (hne : l ≠ []) : l.getLast hne ∉ l.dropLast := by
  have hsplit := List.dropLast_append_getLast hne
  intro hmem
  rw [← hsplit, List.nodup_append] at h
  exact h.2.2 hmem (by simp)

theorem buildPlayersGo_spycount (pack : LocationPack) (spyIndex : Nat)
    (allSlots : List PlayerSlotConfig) :
    ∀ (rest : List PlayerSlotConfig) (i : Nat) (roles : List Str),
      ((buildPlayersGo pack spyIndex allSlots rest i roles).filter
          (fun p => secretIsSpy p.secret)).length
        = if i ≤ spyIndex ∧ spyIndex < i + rest.length then 1 else 0 := by
  intro rest
  induction rest with
  | nil =>
    intro i roles
    simp only [buildPlayersGo, List.filter_nil, List.length_nil, List.length_cons]
    split
    · omega
    · rfl
  | cons slot rest2 ih =>
    intro i roles
    simp only [buildPlayersGo, List.length_cons]
    by_cases hi : i = spyIndex
    · rw [if_pos (by simp [hi])]
      rw [List.filter_cons_of_pos (by simp [secretIsSpy])]
      simp only [List.length_cons]
      rw [ih (i+1) roles]
      subst hi
      rw [if_neg (by omega), if_pos (by omega)]
    · rw [if_neg (by simpa using hi)]
      rw [List.filter_cons_of_neg (by simp [secretIsSpy])]
      rw [ih (i+1) roles.dropLast]
      split <;> split <;> omega

theorem buildPlayersGo_civ (pack : LocationPack) (spyIndex : Nat)
    (allSlots : List PlayerSlotConfig) :
    ∀ (rest : List PlayerSlotConfig) (i : Nat) (roles : List Str),
      roles.Nodup → ([] : Str) ∉ roles →
      rest.length - (if i ≤ spyIndex ∧ spyIndex < i + rest.length then 1 else 0)
        ≤ roles.length →
      ((buildPlayersGo pack spyIndex allSlots rest i roles).filterMap civRole).Nodup
      ∧ (∀ r ∈ (buildPlayersGo pack spyIndex allSlots rest i roles).filterMap civRole,
          r ∈ roles)
      ∧ (∀ p ∈ buildPlayersGo pack spyIndex allSlots rest i roles,
          ∀ loc role, p.secret = .civilian loc role → loc = pack.location) := by
  intro rest
  induction rest with
  | nil =>
    intro i roles _ _ _
    simp [buildPlayersGo]
  | cons slot rest2 ih =>
    intro i roles hnodup hne hcap
    simp only [buildPlayersGo]
    by_cases hi : i = spyIndex
    · rw [if_pos (by simpa using hi)]
      have hcap2 : rest2.length -
          (if i + 1 ≤ spyIndex ∧ spyIndex < i + 1 + rest2.length then 1 else 0)
          ≤ roles.length := by
        subst hi
        rw [if_neg (by omega)]
        simp only [List.length_cons] at hcap
        rw [if_pos (by omega)] at hcap
        omega
      obtain ⟨h1, h2, h3⟩ := ih (i+1) roles hnodup hne hcap2
      refine ⟨?_, ?_, ?_⟩
      · simpa [civRole] using h1
      · intro r hr
        apply h2
        simpa [civRole] using hr
      · intro p hp loc role hsec
        rcases List.mem_cons.mp hp with hh | hh
        · rw [hh] at hsec
          cases hsec
        · exact h3 p hh loc role hsec
    · rw [if_neg (by simpa using hi)]
      have hind : (if i ≤ spyIndex ∧ spyIndex < i + (slot :: rest2).length then 1 else 0)
          = (if i + 1 ≤ spyIndex ∧ spyIndex < i + 1 + rest2.length then 1 else 0) := by
        simp only [List.length_cons]
        split <;> split <;> omega
      have hrne : roles ≠ [] := by
        intro hniln
        rw [hniln] at hcap
        simp only [List.length_cons, List.length_nil] at hcap
        split at hcap <;> omega
      have hpop : popRole roles = roles.getLast hrne := by
        unfold popRole
        rw [List.getLast?_eq_getLast roles hrne]
        have : roles.getLast hrne ≠ [] := by
          intro hempt
          exact hne (hempt ▸ List.getLast_mem hrne)
        simp only [List.isEmpty_iff]
        rw [if_neg this]
      have hlen1 : 1 ≤ roles.length := by
        cases roles with
        | nil => exact absurd rfl hrne
        | cons _ _ => simp
      have hcap2 : rest2.length -
          (if i + 1 ≤ spyIndex ∧ spyIndex < i + 1 + rest2.length then 1 else 0)
          ≤ roles.dropLast.length := by
        rw [List.length_dropLast]
        rw [hind] at hcap
        simp only [List.length_cons] at hcap
        by_cases hc : i + 1 ≤ spyIndex ∧ spyIndex < i + 1 + rest2.length
        · rw [if_pos hc] at hcap ⊢
          omega
        · rw [if_neg hc] at hcap ⊢
          omega
      have hdnodup : roles.dropLast.Nodup :=
        (List.dropLast_sublist roles).nodup hnodup
      have hdne : ([] : Str) ∉ roles.dropLast := by
        intro hmem
        exact hne ((List.dropLast_sublist roles).subset hmem)
      obtain ⟨h1, h2, h3⟩ := ih (i+1) roles.dropLast hdnodup hdne hcap2
      refine ⟨?_, ?_, ?_⟩
      · simp only [List.filterMap_cons]
        simp only [civRole]
        rw [List.nodup_cons]
        constructor
        · rw [hpop]
          intro hmem
          exact getLast_not_mem_dropLast hnodup hrne (h2 _ hmem)
        · exact h1
      · intro r hr
        simp only [List.filterMap_cons, civRole] at hr
        rcases List.mem_cons.mp hr with hh | hh
        · rw [hh, hpop]
          exact List.getLast_mem hrne
        · exact (List.dropLast_sublist roles).subset (h2 r hh)
      · intro p hp loc role hsec
        rcases List.mem_cons.mp hp with hh | hh
        · rw [hh] at hsec
          cases hsec
          rfl
        · exact h3 p hh loc role hsec

/-- C7 (corrected): a successful setup always has exactly one spy and gives
every civilian the pack location; and provided the configuration does not
request more players than roles-plus-one (and the pack has pairwise-distinct
non-empty roles, as the catalog does), the civilian roles are pairwise
distinct and drawn from the pack role list.  With more players than that the
setup still succeeds but pads with duplicate `"Visitor"` roles (see the
counterexample). -/
theorem C7_setup_secrets_amended (slots : List PlayerSlotConfig)
    (locationName : Option Str) (randomPack : LocationPack) (spyIndex : Nat)
    (js : Nat → Nat) (pack : LocationPack) (players : List Player)
    (hsetup : setupGame slots locationName randomPack spyIndex js = .ok (pack, players))
    (hspy : spyIndex < slots.length)
    (hcap : slots.length ≤ pack.roles.length + 1)
    (hnodup : pack.roles.Nodup)
    (hne : ([] : Str) ∉ pack.roles) :
    ((players.filter (fun p => secretIsSpy p.secret)).length = 1)
    ∧ ((players.filterMap civRole).Nodup)
    ∧ (∀ r ∈ players.filterMap civRole, r ∈ pack.roles)
    ∧ (∀ p ∈ players, ∀ loc role, p.secret = .civilian loc role →
        loc = pack.location) := by
  unfold setupGame at hsetup
  cases hsel : selectPack locationName randomPack with
  | error e => rw [hsel] at hsetup; cases hsetup
  | ok pack0 =>
    rw [hsel] at hsetup
    simp only [Except.ok.injEq, Prod.mk.injEq] at hsetup
    obtain ⟨hpk, hpl⟩ := hsetup
    subst hpk
    subst hpl
    have hperm := shuffle_perm js pack0.roles
    have hsub : (shuffle js pack0.roles).take (slots.length - 1) ⊆ pack0.roles :=
      fun x hx => hperm.mem_iff.mp ((List.take_sublist _ _).subset hx)
    have htnodup : ((shuffle js pack0.roles).take (slots.length - 1)).Nodup :=
      (List.take_sublist _ _).nodup (hperm.nodup_iff.mpr hnodup)
    have htne : ([] : Str) ∉ (shuffle js pack0.roles).take (slots.length - 1) :=
      fun hm => hne (hsub hm)
    have hlen : slots.length - 1
        ≤ ((shuffle js pack0.roles).take (slots.length - 1)).length := by
      rw [List.length_take, hperm.length_eq]
      omega
    have hciv := buildPlayersGo_civ pack0 spyIndex slots slots 0
      ((shuffle js pack0.roles).take (slots.length - 1)) htnodup htne
      (by
        rw [if_pos (by omega)]
        omega)
    obtain ⟨h1, h2, h3⟩ := hciv
    refine ⟨?_, h1, fun r hr => hsub (h2 r hr), h3⟩
    rw [buildPlayersGo_spycount pack0 spyIndex slots slots 0
      ((shuffle js pack0.roles).take (slots.length - 1))]
    rw [if_pos (by omega)]

/-- C7 counterexample: eight players on the six-role Casino pack is a
successful setup, yet the last civilian gets the fallback role `"Visitor"`,
which is not in the pack role list — so the claim fails as stated for every
successful setup. -/
theorem C7_eight_players_visitor_fallback :
    (setupGame eightSlots (some ("Casino".data)) casinoPack 0 (fun i => i)).toOption.map
        (fun pr => pr.2.filterMap civRole) =
      some [("Entertainer".data), ("Pit Boss".data), ("Bartender".data),
            ("Security Guard".data), ("Gambler".data), ("Dealer".data), ("Visitor".data)]
    ∧ ("Visitor".data) ∉ casinoPack.roles := by
  constructor
  · decide
  · decide

/-- C7 witness: the amended theorem on a four-player Casino setup. -/
theorem C7_amended_witness :
    ((fourPlayers.filter (fun p => secretIsSpy p.secret)).length = 1)
    ∧ ((fourPlayers.filterMap civRole).Nodup)
    ∧ (∀ r ∈ fourPlayers.filterMap civRole, r ∈ casinoPack.roles)
    ∧ (∀ p ∈ fourPlayers, ∀ loc role, p.secret = .civilian loc role →
        loc = casinoPack.location) :=
  C7_setup_secrets_amended fourSlots (some ("Casino".data)) casinoPack 1 (fun i => i)
    casinoPack fourPlayers (by rfl) (by decide) (by decide) (by decide) (by decide)

/-! Question-round loop (claims C8 and C9). -/

theorem askStep_isSome (o : Oracles) (players : List Player) (st : LoopState)
    (n : Nat) (hne : players ≠ []) : (askStep o players st n).isSome = true := by
  simp only [askStep]
  have h := resolveTargetPlayer_isSome o.choose players
    (o.ask players st.currentAsker n).targetName st.currentAsker.id
    (st.lastAsker.map Player.id) hne
  split
  · rename_i heq
    rw [heq] at h
    simp at h
  · rfl

theorem runQuestionRoundsAux_len (o : Oracles) (players : List Player)
    (pack : LocationPack) (hne : players ≠ [])
    (hspy : ∀ p t c n, secretIsSpy p.secret = true →
      (o.chooseAction players t p c n).action ≠ .guess) :
    ∀ (rem : Nat) (st : LoopState) (log : List GateEntry),
      ((runQuestionRoundsAux o players pack false rem st log).1).map
        (fun res => (res.turns.length, res.earlyEnd))
        = some (st.turns.length + rem, .notEnded) := by
  intro rem
  induction rem with
  | zero =>
    intro st log
    simp [runQuestionRoundsAux]
  | succ r ih =>
    intro st log
    simp only [runQuestionRoundsAux, Bool.false_and, Bool.and_false]
    have hstep := askStep_isSome o players st (st.roundCount + 1) hne
    cases hstepe : askStep o players st (st.roundCount + 1) with
    | none =>
      rw [hstepe] at hstep
      simp at hstep
    | some pr =>
      obtain ⟨turn, target⟩ := pr
      split
      · split
        · rename_i hguess
          exfalso
          rw [Bool.and_eq_true] at hguess
          have := hspy st.currentAsker st.turns false (st.roundCount + 1) hguess.2
          rw [beq_iff_eq] at hguess
          exact this hguess.1
        · rw [if_neg (by simp)]
          simp only [ih]
          simp only [Option.some.injEq, Prod.mk.injEq, List.length_append,
            List.length_cons, List.length_nil, and_true]
          omega
      · simp only [ih]
        simp only [Option.some.injEq, Prod.mk.injEq, List.length_append,
          List.length_cons, List.length_nil, and_true]
        omega

/-- C9 (confirmed): with early voting disabled and a spy that never chooses
the guess action, the question-round loop performs exactly `numRounds`
iterations, appends exactly one `Turn` per iteration, and reports no early
end — the transcript length equals the configured round count. -/
theorem C9_transcript_length (o : Oracles) (numRounds : Nat)
    (players : List Player) (pack : LocationPack)
    (hne : players ≠ [])
    (hspy : ∀ p t c n, secretIsSpy p.secret = true →
      (o.chooseAction players t p c n).action ≠ .guess) :
    ((runQuestionRounds o numRounds players pack false).1).map
      (fun res => (res.turns.length, res.earlyEnd)) = some (numRounds, .notEnded) := by
  unfold runQuestionRounds
  cases players with
  | nil => exact absurd rfl hne
  | cons p ps =>
    rw [runQuestionRoundsAux_len o (p :: ps) pack hne hspy numRounds]
    simp

/-- C9 witness: a six-round three-player game under the concrete oracles
yields a transcript of length exactly six and no early end. -/
theorem C9_transcript_length_witness :
    ((runQuestionRounds c9Oracle 6 [alice, bob, charlie] casinoPack false).1).map
      (fun res => (res.turns.length, res.earlyEnd)) = some (6, .notEnded) :=
  C9_transcript_length c9Oracle 6 [alice, bob, charlie] casinoPack (by decide)
    (by
      intro p t c n hs
      simp [c9Oracle, cOracleBase])

theorem pairwise_snoc_gate {log : List GateEntry} {e : GateEntry}
    (hpw : log.Pairwise gateConsumedR)
    (h : ∀ a ∈ log, gateConsumedR a e) :
    (log ++ [e]).Pairwise gateConsumedR := by
  rw [List.pairwise_append]
  refine ⟨hpw, List.pairwise_singleton _ _, ?_⟩
  intro a ha b hb
  rw [List.mem_singleton] at hb
  subst hb
  exact h a ha

theorem runQuestionRoundsAux_gate (o : Oracles) (players : List Player)
    (pack : LocationPack) (ave : Bool) :
    ∀ (rem : Nat) (st : LoopState) (log : List GateEntry),
      (∀ e ∈ log, e.action = .vote → e.canAccuse = true → e.askerId ∈ st.usedVote) →
      log.Pairwise gateConsumedR →
      ((runQuestionRoundsAux o players pack ave rem st log).2).Pairwise gateConsumedR := by
  intro rem
  induction rem with
  | zero =>
    intro st log _ hpw
    simpa [runQuestionRoundsAux] using hpw
  | succ r ih =>
    intro st log hlog hpw
    simp only [runQuestionRoundsAux]
    split
    · rename_i hunlock
      have hsnoc : ∀ act : TurnAction,
          (log ++ [(⟨st.roundCount + 1, st.currentAsker.id,
            ave && !(st.usedVote.contains st.currentAsker.id), act⟩ : GateEntry)]).Pairwise
            gateConsumedR := by
        intro act
        apply pairwise_snoc_gate hpw
        intro a ha
        intro hid hact hcan
        have hmem : a.askerId ∈ st.usedVote := hlog a ha hact hcan
        rw [hid] at hmem
        have hcont : st.usedVote.contains st.currentAsker.id = true := by
          simpa [List.elem_iff] using hmem
        show (ave && !(st.usedVote.contains st.currentAsker.id)) = false
        rw [hcont]
        simp
      split
      · exact hsnoc _
      · split
        · rename_i hvote
          split
          · exact hsnoc _
          · exact hsnoc _
          · split
            · exact hsnoc _
            · apply ih
              · intro e2 he2 hact hcan
                rcases List.mem_append.mp he2 with h1 | h1
                · exact setAdd_subset (hlog e2 h1 hact hcan)
                · rw [List.mem_singleton] at h1
                  subst h1
                  exact mem_setAdd_self
              · exact hsnoc _
        · rename_i hguess hvote
          split
          · exact hsnoc _
          · apply ih
            · intro e2 he2 hact hcan
              rcases List.mem_append.mp he2 with h1 | h1
              · exact hlog e2 h1 hact hcan
              · exfalso
                rw [List.mem_singleton] at h1
                subst h1
                apply hvote
                have hcan2 : (ave && !(st.usedVote.contains st.currentAsker.id)) = true := hcan
                rw [Bool.and_eq_true] at hcan2
                simp only [Bool.and_eq_true, beq_iff_eq]
                exact ⟨hact, hcan2.1, hcan2.2⟩
            · exact hsnoc _
    · split
      · exact hpw
      · exact ih _ log hlog hpw

/-- C8 (confirmed): in the question-round loop the one-time accusation right
is consumed the moment an asker chooses the accuse action while it is offered
— the outer loop adds the asker to the used set before the accusation
sub-procedure runs, regardless of whether the inner accusation is unresolved,
self-targeted, or fails — and from then on the accuse option is never offered
to that asker again: along the gate trace, any entry where a player chose
`vote` with the option offered is followed only by entries with the option
withheld for that player. -/
theorem C8_accusation_right_consumed (o : Oracles) (players : List Player)
    (pack : LocationPack) (allowEarlyVote : Bool) (numRounds : Nat) :
    ((runQuestionRounds o numRounds players pack allowEarlyVote).2).Pairwise
      gateConsumedR := by
  unfold runQuestionRounds
  cases players with
  | nil => simp
  | cons p ps =>
    apply runQuestionRoundsAux_gate
    · intro e he
      cases he
    · exact List.Pairwise.nil

/-! Field extraction (claim C4). -/

theorem isJsSpace_of_isLineTerm {c : Char} (h : isLineTerm c = true) :
    isJsSpace c = true := by
  unfold isLineTerm at h
  unfold isJsSpace
  simp only [Bool.or_eq_true, beq_iff_eq] at h ⊢
  rcases h with ((h | h) | h) | h <;> subst h <;> simp

theorem lowerEq_eq_false_left {p c : Char} (hp : p.toLower ≠ c)
    (hc : c.toLower = c) : lowerEq p c = false := by
  unfold lowerEq
  rw [hc]
  simpa using hp

theorem prefixCI_crlf :
    ∀ (u pat : Str), (∀ c ∈ pat, c.toLower ≠ '\n' ∧ c.toLower ≠ '\r') →
      isPrefixCI pat (crlfToLf u) = isPrefixCI pat u := by
  intro u
  induction u using crlfToLf.induct with
  | case1 =>
    intro pat _
    rfl
  | case2 c =>
    intro pat _
    rfl
  | case3 c d rest hcd ih =>
    intro pat hpat
    obtain ⟨hc, hd⟩ := hcd
    subst hc
    subst hd
    cases pat with
    | nil => rfl
    | cons p ps =>
      have h1 : lowerEq p '\n' = false :=
        lowerEq_eq_false_left (hpat p (by simp)).1 (by decide)
      have h2 : lowerEq p '\r' = false :=
        lowerEq_eq_false_left (hpat p (by simp)).2 (by decide)
      simp only [crlfToLf, if_pos (And.intro rfl rfl)]
      simp [isPrefixCI, h1, h2]
  | case4 c d rest hcd ih =>
    intro pat hpat
    simp only [crlfToLf, if_neg hcd]
    cases pat with
    | nil => rfl
    | cons p ps =>
      simp only [isPrefixCI]
      rw [ih ps (fun x hx => hpat x (by simp [hx]))]

theorem drop_crlf :
    ∀ (u pat : Str), (∀ c ∈ pat, c.toLower ≠ '\n' ∧ c.toLower ≠ '\r') →
      isPrefixCI pat u = true →
      (crlfToLf u).drop pat.length = crlfToLf (u.drop pat.length) := by
  intro u
  induction u using crlfToLf.induct with
  | case1 =>
    intro pat _ hp
    cases pat with
    | nil => rfl
    | cons p ps => cases hp
  | case2 c =>
    intro pat _ hp
    cases pat with
    | nil => rfl
    | cons p ps =>
      cases ps with
      | nil => rfl
      | cons q qs =>
        simp [isPrefixCI] at hp
  | case3 c d rest hcd ih =>
    intro pat hpat hp
    obtain ⟨hc, hd⟩ := hcd
    subst hc
    subst hd
    cases pat with
    | nil => rfl
    | cons p ps =>
      have h2 : lowerEq p '\r' = false :=
        lowerEq_eq_false_left (hpat p (by simp)).2 (by decide)
      simp [isPrefixCI, h2] at hp
  | case4 c d rest hcd ih =>
    intro pat hpat hp
    cases pat with
    | nil => rfl
    | cons p ps =>
      simp only [crlfToLf, if_neg hcd]
      simp only [isPrefixCI, Bool.and_eq_true] at hp
      simp only [List.length_cons, List.drop_succ_cons]
      exact ih ps (fun x hx => hpat x (by simp [hx])) hp.2

theorem findKey_crlf {pat : Str} (hne : pat ≠ [])
    (hpat : ∀ c ∈ pat, c.toLower ≠ '\n' ∧ c.toLower ≠ '\r') :
    ∀ u, findKeyAux pat (crlfToLf u) = (findKeyAux pat u).map crlfToLf := by
  intro u
  induction u using crlfToLf.induct with
  | case1 => rfl
  | case2 c =>
    show findKeyAux pat [c] = (findKeyAux pat [c]).map crlfToLf
    by_cases hp : isPrefixCI pat [c] = true
    · simp only [findKeyAux, if_pos hp, Option.map_some']
      have := drop_crlf [c] pat hpat hp
      simp only [show crlfToLf [c] = [c] from rfl] at this
      rw [← this]
    · simp only [findKeyAux, if_neg hp]
      rfl
  | case3 c d rest hcd ih =>
    obtain ⟨hc, hd⟩ := hcd
    subst hc
    subst hd
    obtain ⟨p, ps, hpat_eq⟩ : ∃ p ps, pat = p :: ps := by
      cases pat with
      | nil => exact absurd rfl hne
      | cons p ps => exact ⟨p, ps, rfl⟩
    have h1 : lowerEq p '\n' = false :=
      lowerEq_eq_false_left (hpat p (by rw [hpat_eq]; simp)).1 (by decide)
    have h2 : lowerEq p '\r' = false :=
      lowerEq_eq_false_left (hpat p (by rw [hpat_eq]; simp)).2 (by decide)
    subst hpat_eq
    simp only [crlfToLf, if_pos (And.intro rfl rfl)]
    simp only [findKeyAux, isPrefixCI, h1, h2, Bool.false_and, Bool.false_eq_true, if_false]
    exact ih
  | case4 c d rest hcd ih =>
    simp only [crlfToLf, if_neg hcd]
    by_cases hp : isPrefixCI pat (c :: d :: rest) = true
    · have hp2 : isPrefixCI pat (c :: crlfToLf (d :: rest)) = true := by
        have := prefixCI_crlf (c :: d :: rest) pat hpat
        simp only [crlfToLf, if_neg hcd] at this
        rw [this]
        exact hp
      simp only [findKeyAux, if_pos hp, if_pos hp2, Option.map_some']
      have := drop_crlf (c :: d :: rest) pat hpat hp
      simp only [crlfToLf, if_neg hcd] at this
      rw [this]
    · have hp2 : ¬ isPrefixCI pat (c :: crlfToLf (d :: rest)) = true := by
        have := prefixCI_crlf (c :: d :: rest) pat hpat
        simp only [crlfToLf, if_neg hcd] at this
        rw [this]
        exact hp
      simp only [findKeyAux, if_neg hp, if_neg hp2]
      exact ih

theorem dropWhile_ws_crlf :
    ∀ u, (crlfToLf u).dropWhile isJsSpace = crlfToLf (u.dropWhile isJsSpace) := by
  intro u
  induction u using crlfToLf.induct with
  | case1 => rfl
  | case2 c =>
    show [c].dropWhile isJsSpace = crlfToLf ([c].dropWhile isJsSpace)
    cases h : isJsSpace c <;> simp [List.dropWhile, h, crlfToLf]
  | case3 c d rest hcd ih =>
    obtain ⟨hc, hd⟩ := hcd
    subst hc
    subst hd
    simp only [crlfToLf, if_pos (And.intro rfl rfl)]
    simp only [List.dropWhile, show isJsSpace '\n' = true from rfl,
      show isJsSpace '\r' = true from rfl]
    exact ih
  | case4 c d rest hcd ih =>
    simp only [crlfToLf, if_neg hcd]
    by_cases h : isJsSpace c = true
    · simp only [List.dropWhile, h]
      exact ih
    · simp only [List.dropWhile]
      rw [Bool.not_eq_true] at h
      rw [h]
      simp only [crlfToLf, if_neg hcd]

theorem takeWhile_notLT_crlf :
    ∀ u, (crlfToLf u).takeWhile (fun c => !isLineTerm c)
      = u.takeWhile (fun c => !isLineTerm c) := by
  intro u
  induction u using crlfToLf.induct with
  | case1 => rfl
  | case2 c => rfl
  | case3 c d rest hcd ih =>
    obtain ⟨hc, hd⟩ := hcd
    subst hc
    subst hd
    simp only [crlfToLf, if_pos (And.intro rfl rfl)]
    simp [List.takeWhile, isLineTerm]
  | case4 c d rest hcd ih =>
    simp only [crlfToLf, if_neg hcd]
    by_cases h : isLineTerm c = true
    · simp [List.takeWhile, h]
    · rw [Bool.not_eq_true] at h
      simp only [List.takeWhile, h, Bool.not_false]
      rw [ih]
      rfl

theorem parseField_crlf (key : Str)
    (hkey : ∀ c ∈ key, c.toLower ≠ '\n' ∧ c.toLower ≠ '\r') (t : Str) :
    parseField key (crlfToLf t) = parseField key t := by
  have hpat : ∀ c ∈ key ++ [':'], c.toLower ≠ '\n' ∧ c.toLower ≠ '\r' := by
    intro c hc
    rcases List.mem_append.mp hc with h | h
    · exact hkey c h
    · rw [List.mem_singleton] at h
      subst h
      exact ⟨by decide, by decide⟩
  have hne : key ++ [':'] ≠ [] := by simp
  unfold parseField
  rw [findKey_crlf hne hpat t]
  cases h : findKeyAux (key ++ [':']) t with
  | none => rfl
  | some rest =>
    simp only [Option.map_some']
    unfold matchTail
    rw [dropWhile_ws_crlf rest, takeWhile_notLT_crlf]

theorem dropWhile_append_of_all {p : Char → Bool} :
    ∀ (a b : Str), (∀ c ∈ a, p c = true) → (a ++ b).dropWhile p = b.dropWhile p := by
  intro a
  induction a with
  | nil => intro b _; rfl
  | cons x xs ih =>
    intro b h
    simp only [List.cons_append, List.dropWhile, h x (by simp)]
    exact ih b (fun c hc => h c (by simp [hc]))

theorem takeWhile_append_of_all {p : Char → Bool} :
    ∀ (a b : Str), (∀ c ∈ a, p c = true) →
      (a ++ b).takeWhile p = a ++ b.takeWhile p := by
  intro a
  induction a with
  | nil => intro b _; rfl
  | cons x xs ih =>
    intro b h
    simp only [List.cons_append, List.takeWhile, h x (by simp)]
    exact congrArg (List.cons x) (ih b (fun c hc => h c (by simp [hc])))

theorem jsTrim_append_ws (x sfx : Str) (h : ∀ c ∈ sfx, isJsSpace c = true) :
    jsTrim (x ++ sfx) = jsTrim x := by
  unfold jsTrim
  rw [List.dropWhile_append]
  by_cases hx : (x.dropWhile isJsSpace).isEmpty = true
  · rw [if_pos hx]
    have hsfx : sfx.dropWhile isJsSpace = [] := by
      have := dropWhile_append_of_all sfx [] h
      simpa using this
    rw [hsfx]
    rw [List.isEmpty_iff] at hx
    rw [hx]
  · rw [if_neg hx]
    rw [List.reverse_append]
    rw [dropWhile_append_of_all sfx.reverse (x.dropWhile isJsSpace).reverse
      (fun c hc => h c (List.mem_reverse.mp hc))]

theorem replicate_space_ws (n : Nat) : ∀ c ∈ List.replicate n ' ', isJsSpace c = true := by
  intro c hc
  rw [List.eq_of_mem_replicate hc]
  rfl

theorem takeWhile_notLT_spaces (m : Nat) (rest : Str) :
    (List.replicate m ' ' ++ '\n' :: rest).takeWhile (fun c => !isLineTerm c)
      = List.replicate m ' ' := by
  rw [takeWhile_append_of_all _ _ (fun c hc => by rw [List.eq_of_mem_replicate hc]; rfl)]
  rw [show List.takeWhile (fun c => !isLineTerm c) ('\n' :: rest) = [] from rfl]
  simp

theorem matchTail_value (m : Nat) (rest : Str) :
    ∀ (v : Str), (∀ c ∈ v, isLineTerm c = false) →
      jsTrim (((v ++ (List.replicate m ' ' ++ '\n' :: rest)).dropWhile
          isJsSpace).takeWhile (fun c => !isLineTerm c))
        = jsTrim (((v ++ '\n' :: rest).dropWhile isJsSpace).takeWhile
          (fun c => !isLineTerm c)) := by
  intro v
  induction v with
  | nil =>
    intro _
    simp only [List.nil_append]
    rw [dropWhile_append_of_all _ _ (replicate_space_ws m)]
  | cons c v2 ih =>
    intro hv
    by_cases hws : isJsSpace c = true
    · simp only [List.cons_append, List.dropWhile, hws]
      exact ih (fun x hx => hv x (by simp [hx]))
    · rw [Bool.not_eq_true] at hws
      simp only [List.cons_append, List.dropWhile, hws]
      have hcnotlt : (!isLineTerm c) = true := by
        rw [hv c (by simp)]
        rfl
      simp only [List.takeWhile, hcnotlt, List.append_eq]
      have hv2 : ∀ x ∈ v2, (!isLineTerm x) = true := by
        intro x hx
        rw [hv x (by simp [hx])]
        rfl
      rw [takeWhile_append_of_all v2 _ hv2, takeWhile_append_of_all v2 _ hv2]
      rw [takeWhile_notLT_spaces]
      rw [show List.takeWhile (fun c => !isLineTerm c) ('\n' :: rest) = [] from rfl]
      rw [List.append_nil]
      rw [show (c :: (v2 ++ List.replicate m ' ')) = (c :: v2) ++ List.replicate m ' '
        from rfl]
      exact jsTrim_append_ws (c :: v2) (List.replicate m ' ') (replicate_space_ws m)

theorem isPrefixCI_self_append : ∀ (pat x : Str), isPrefixCI pat (pat ++ x) = true := by
  intro pat
  induction pat with
  | nil => intro x; rfl
  | cons p ps ih =>
    intro x
    simp only [List.cons_append, isPrefixCI, Bool.and_eq_true]
    exact ⟨by simp [lowerEq], ih x⟩

theorem findKeyAux_self {pat : Str} (hne : pat ≠ []) (x : Str) :
    findKeyAux pat (pat ++ x) = some x := by
  cases pat with
  | nil => exact absurd rfl hne
  | cons p ps =>
    rw [show findKeyAux (p :: ps) ((p :: ps) ++ x)
        = if isPrefixCI (p :: ps) ((p :: ps) ++ x) = true
          then some (((p :: ps) ++ x).drop (p :: ps).length)
          else findKeyAux (p :: ps) (ps ++ x) from rfl]
    rw [if_pos (isPrefixCI_self_append (p :: ps) x)]
    rw [List.drop_left]

theorem findKeyAux_none {pat : Str} :
    ∀ t, hasKeyCI pat t = false → findKeyAux pat t = none := by
  intro t
  induction t with
  | nil => intro _; rfl
  | cons c cs ih =>
    intro h
    simp only [hasKeyCI, Bool.or_eq_false_iff] at h
    simp only [findKeyAux, h.1, Bool.false_eq_true, if_false]
    exact ih h.2

/-- C4 (corrected): `parseField` is invariant to spaces around the value and
to CRLF versus LF line endings, and returns the empty string whenever the
text contains no case-insensitive occurrence of `KEY:` at all.  The claim
that the empty string is returned exactly when no *line starts with* `KEY:`
is false: the regular expression `KEY:\s*(.*)` matches anywhere in a line
(see the counterexample). -/
theorem C4_parseField_amended (key : Str) :
    (∀ (v rest : Str) (n m : Nat), (∀ c ∈ v, isLineTerm c = false) →
      parseField key ((key ++ [':']) ++ (List.replicate n ' ' ++ (v
          ++ (List.replicate m ' ' ++ '\n' :: rest))))
        = parseField key ((key ++ [':']) ++ (v ++ '\n' :: rest)))
    ∧ (∀ t, (∀ c ∈ key, c.toLower ≠ '\n' ∧ c.toLower ≠ '\r') →
        parseField key (crlfToLf t) = parseField key t)
    ∧ (∀ t, hasKeyCI (key ++ [':']) t = false → parseField key t = []) := by
  refine ⟨?_, ?_, ?_⟩
  · intro v rest n m hv
    have hne : key ++ [':'] ≠ [] := by simp
    have hpf : ∀ X : Str, parseField key ((key ++ [':']) ++ X) = matchTail X := by
      intro X
      unfold parseField
      rw [findKeyAux_self hne]
    rw [hpf, hpf]
    unfold matchTail
    rw [dropWhile_append_of_all _ _ (replicate_space_ws n)]
    exact matchTail_value m rest v hv
  · intro t hkey
    exact parseField_crlf key hkey t
  · intro t h
    unfold parseField
    rw [findKeyAux_none t h]

/-- C4 counterexample: `VOTE:` occurring mid-line is honoured — the parse
returns `Bob` even though no line of the text starts with `VOTE:`, so the
claimed equivalence with line-start occurrence fails. -/
theorem C4_midline_key_match :
    parseField ("VOTE".data) ("please VOTE: Bob".data) = ("Bob".data)
    ∧ (splitLines ("please VOTE: Bob".data)).all
        (fun l => !isPrefixCI (("VOTE".data) ++ [':']) l) = true := by
  constructor
  · decide
  · decide

/-- C4 witness: the amended theorem at concrete inputs — spaces around the
value, a CRLF text, and a key-free text. -/
theorem C4_amended_witness :
    parseField ("VOTE".data) ((("VOTE".data) ++ [':']) ++ (List.replicate 2 ' '
        ++ (("Bob".data) ++ (List.replicate 3 ' ' ++ '\n' :: ("WHY: x".data)))))
      = parseField ("VOTE".data) ((("VOTE".data) ++ [':']) ++ (("Bob".data)
        ++ '\n' :: ("WHY: x".data)))
    ∧ parseField ("VOTE".data) (crlfToLf ("A: b\r\nVOTE: Bob\r\n".data))
      = parseField ("VOTE".data) ("A: b\r\nVOTE: Bob\r\n".data)
    ∧ parseField ("VOTE".data) ("nothing to see here".data) = [] :=
  ⟨(C4_parseField_amended ("VOTE".data)).1 ("Bob".data) ("WHY: x".data) 2 3 (by decide),
   (C4_parseField_amended ("VOTE".data)).2.1 ("A: b\r\nVOTE: Bob\r\n".data) (by decide),
   (C4_parseField_amended ("VOTE".data)).2.2 ("nothing to see here".data) (by decide)⟩
